import Mathlib

/-!
# Verification of the HioLang core toolchain

Shallow embedding of the HioLang scripting-language toolchain
(src/HIOLANG/src): lexer, recursive-descent parser, tree-walking
evaluator and stack-machine bytecode emitter, together with proofs of
the specification claims about them.

Modelling conventions, fixed once here:

* Rust `i64` is embedded as `Int`; the only place where the 64-bit
  representation is semantically relevant (the `as usize` cast in the
  index operation) is modelled explicitly by reduction modulo `2 ^ 64`.
* Rust `f64` literals are carried as their source text; no claim
  depends on IEEE float values, and all float-valued operations of the
  source either keep the payload opaque or fail.
* Rust `HashMap` is embedded as an insertion-ordered association list
  with replace-on-insert; no claim observes iteration order.
* `char::is_whitespace`, `is_numeric`, `is_alphabetic`, `is_alphanumeric`
  are embedded as Lean's `Char.isWhitespace`, `isDigit`, `isAlpha`,
  `isAlphanum`; the claims do not distinguish the extra Unicode
  classes accepted by Rust.
* Standard output is embedded as an ordered list of printed chunks
  inside the interpreter state; `println!` appends the newline.
-/

namespace HioLang

/-! ## Tokens (src/lexer.rs, `enum Token`) -/

/-- `Token` from src/lexer.rs.  The source's `Token::String` and
`Token::Float` constructors are named `StringLit`/`FloatLit` here
(`String` collides with the Lean builtin); `FloatLit` carries the raw
literal text in place of the parsed `f64`. -/
inductive Token where
  | Space | End | Make | Inspace | Call | Text | Pub | Subpub | Function
  | Return | If | Else | While | For | Break | Continue | Let
  | Identifier (s : String)
  | StringLit (s : String)
  | Number (n : Int)
  | FloatLit (raw : String)
  | Plus | Minus | Star | Slash | Percent | Equal | EqualEqual | NotEqual
  | Less | LessEqual | Greater | GreaterEqual | And | Or | Not
  | LeftParen | RightParen | LeftBrace | RightBrace | LeftBracket | RightBracket
  | Semicolon | Colon | Comma | Dot | Arrow | DashArrow
  | Eof
  deriving Repr, DecidableEq

/-- Rust `Debug` escaping of a string payload (the escapes the claims can
observe: quote, backslash and the three whitespace escapes). -/
def strDebug (s : String) : String :=
  "\"" ++ String.join (s.data.map (fun c =>
    if c = '"' then "\\\""
    else if c = '\\' then "\\\\"
    else if c = '\n' then "\\n"
    else if c = '\t' then "\\t"
    else if c = '\r' then "\\r"
    else String.mk [c])) ++ "\""

/-- `format!("{:?}", token)` for the derived `Debug` of `Token`. -/
def tokenDebug : Token → String
  | .Space => "Space" | .End => "End" | .Make => "Make" | .Inspace => "Inspace"
  | .Call => "Call" | .Text => "Text" | .Pub => "Pub" | .Subpub => "Subpub"
  | .Function => "Function" | .Return => "Return" | .If => "If" | .Else => "Else"
  | .While => "While" | .For => "For" | .Break => "Break" | .Continue => "Continue"
  | .Let => "Let"
  | .Identifier s => "Identifier(" ++ strDebug s ++ ")"
  | .StringLit s => "String(" ++ strDebug s ++ ")"
  | .Number n => "Number(" ++ toString n ++ ")"
  | .FloatLit raw => "Float(" ++ raw ++ ")"
  | .Plus => "Plus" | .Minus => "Minus" | .Star => "Star" | .Slash => "Slash"
  | .Percent => "Percent" | .Equal => "Equal" | .EqualEqual => "EqualEqual"
  | .NotEqual => "NotEqual" | .Less => "Less" | .LessEqual => "LessEqual"
  | .Greater => "Greater" | .GreaterEqual => "GreaterEqual"
  | .And => "And" | .Or => "Or" | .Not => "Not"
  | .LeftParen => "LeftParen" | .RightParen => "RightParen"
  | .LeftBrace => "LeftBrace" | .RightBrace => "RightBrace"
  | .LeftBracket => "LeftBracket" | .RightBracket => "RightBracket"
  | .Semicolon => "Semicolon" | .Colon => "Colon" | .Comma => "Comma"
  | .Dot => "Dot" | .Arrow => "Arrow" | .DashArrow => "DashArrow"
  | .Eof => "Eof"

/-! ## Lexer (src/lexer.rs)

The source lexer walks a `Vec<char>` with a cursor; since every state
transition is `advance` by one, the embedding carries the remaining
suffix of the character list instead of the index. -/

/-- `Lexer::skip_whitespace`. -/
def skipWhitespace : List Char → List Char
  | [] => []
  | c :: cs => if c.isWhitespace then skipWhitespace cs else c :: cs

/-- `Lexer::skip_comment`: consume up to (but not including) the next
newline, or to end of input. -/
def skipComment : List Char → List Char
  | [] => []
  | c :: cs => if c = '\n' then c :: cs else skipComment cs

/-- `Lexer::read_identifier`: the consumed identifier characters and the
remaining input. -/
def readIdentChars : List Char → List Char × List Char
  | [] => ([], [])
  | c :: cs =>
    if c.isAlphanum || c = '_' then
      let p := readIdentChars cs
      (c :: p.1, p.2)
    else ([], c :: cs)

/-- `Lexer::read_number`'s scanning loop: digits, plus a dot whenever the
character after the dot is again a digit. -/
def readNumberChars : List Char → List Char × List Char
  | [] => ([], [])
  | c :: cs =>
    if c.isDigit then
      let p := readNumberChars cs
      (c :: p.1, p.2)
    else if c = '.' && (cs.head?.elim false Char.isDigit) then
      let p := readNumberChars cs
      (c :: p.1, p.2)
    else ([], c :: cs)

/-- The escape mapping inside `Lexer::read_string`: `n`, `t`, `r` map to
their control characters, every other escaped character (including the
backslash and both quotes) stands for itself. -/
def escapeChar (e : Char) : Char :=
  if e = 'n' then '\n' else if e = 't' then '\t' else if e = 'r' then '\r' else e

/-- `Lexer::read_string`, called after the opening quote was consumed:
returns the content characters and the input remaining after the
closing quote (end of input terminates the literal with the partial
content). -/
def readStringChars (quote : Char) : List Char → List Char × List Char
  | [] => ([], [])
  | c :: cs =>
    if c = quote then ([], cs)
    else if c = '\\' then
      match cs with
      | [] => ([], [])
      | e :: cs2 =>
        let p := readStringChars quote cs2
        (escapeChar e :: p.1, p.2)
    else
      let p := readStringChars quote cs
      (c :: p.1, p.2)

/-- `"...".parse::<i64>().unwrap_or(0)` on a run of decimal digits: the
value when it fits in `i64`, and the fallback `0` on overflow. -/
def parseI64 (ds : List Char) : Int :=
  let n : Int := ds.foldl (fun acc c => acc * 10 + ((c.toNat : Int) - 48)) 0
  if n ≤ 9223372036854775807 then n else 0

/-- End of `Lexer::read_number`: a literal containing a dot becomes a
float token, otherwise an integer token. -/
def mkNumberToken (ds : List Char) : Token :=
  if ds.contains '.' then .FloatLit (String.mk ds) else .Number (parseI64 ds)

/-- The keyword table at the end of `Lexer::next_token`. -/
def keywordOrIdentifier (s : String) : Token :=
  if s = "space" then .Space
  else if s = "end" then .End
  else if s = "make" then .Make
  else if s = "inspace" then .Inspace
  else if s = "call" then .Call
  else if s = "text" then .Text
  else if s = "pub" then .Pub
  else if s = "subpub" then .Subpub
  else if s = "function" then .Function
  else if s = "return" then .Return
  else if s = "if" then .If
  else if s = "else" then .Else
  else if s = "while" then .While
  else if s = "for" then .For
  else if s = "break" then .Break
  else if s = "continue" then .Continue
  else if s = "let" then .Let
  else .Identifier s

/-- The returning arms of the `match` in `Lexer::next_token`, in source
order, on current character `c` and remaining input `cs`.  `none` marks
the two arms that loop instead of returning: the comment arm and the
unrecognized-character arm. -/
def nextTokenCore (c : Char) (cs : List Char) : Option (Token × List Char) :=
  if c = '\'' && cs.head? = some '\'' then none
  else if c = '+' then some (.Plus, cs)
  else if c = '-' then
    if cs.head? = some '>' then some (.Arrow, cs.tail) else some (.Minus, cs)
  else if c = '—' then some (.DashArrow, cs)
  else if c = '*' then some (.Star, cs)
  else if c = '/' then some (.Slash, cs)
  else if c = '%' then some (.Percent, cs)
  else if c = '=' then
    if cs.head? = some '=' then some (.EqualEqual, cs.tail) else some (.Equal, cs)
  else if c = '!' then
    if cs.head? = some '=' then some (.NotEqual, cs.tail) else some (.Not, cs)
  else if c = '<' then
    if cs.head? = some '=' then some (.LessEqual, cs.tail) else some (.Less, cs)
  else if c = '>' then
    if cs.head? = some '=' then some (.GreaterEqual, cs.tail) else some (.Greater, cs)
  else if c = '&' then
    -- a lone `&` backtracks one position and re-advances: net one
    -- character consumed, same token as `&&`
    if cs.head? = some '&' then some (.And, cs.tail) else some (.And, cs)
  else if c = '|' then
    if cs.head? = some '|' then some (.Or, cs.tail) else some (.Or, cs)
  else if c = '(' then some (.LeftParen, cs)
  else if c = ')' then some (.RightParen, cs)
  else if c = '{' then some (.LeftBrace, cs)
  else if c = '}' then some (.RightBrace, cs)
  else if c = '[' then some (.LeftBracket, cs)
  else if c = ']' then some (.RightBracket, cs)
  else if c = ';' then some (.Semicolon, cs)
  else if c = ':' then some (.Colon, cs)
  else if c = ',' then some (.Comma, cs)
  else if c = '.' then some (.Dot, cs)
  else if c = '"' || c = '\'' then
    some (.StringLit (String.mk (readStringChars c cs).1), (readStringChars c cs).2)
  else if c.isDigit then
    some (mkNumberToken (readNumberChars (c :: cs)).1, (readNumberChars (c :: cs)).2)
  else if c.isAlpha || c = '_' then
    some (keywordOrIdentifier (String.mk (readIdentChars (c :: cs)).1),
      (readIdentChars (c :: cs)).2)
  else none

theorem skipWhitespace_length_le (l : List Char) :
    (skipWhitespace l).length ≤ l.length := by
  induction l with
  | nil => simp [skipWhitespace]
  | cons c cs ih =>
    simp only [skipWhitespace]
    split
    · exact le_trans ih (Nat.le_succ _)
    · exact le_refl _

theorem skipComment_length_le (l : List Char) :
    (skipComment l).length ≤ l.length := by
  induction l with
  | nil => simp [skipComment]
  | cons c cs ih =>
    simp only [skipComment]
    split
    · exact le_refl _
    · exact le_trans ih (Nat.le_succ _)

theorem readIdentChars_length_le (l : List Char) :
    (readIdentChars l).2.length ≤ l.length := by
  induction l with
  | nil => simp [readIdentChars]
  | cons c cs ih =>
    simp only [readIdentChars]
    split
    · exact le_trans ih (Nat.le_succ _)
    · exact le_refl _

theorem readNumberChars_length_le (l : List Char) :
    (readNumberChars l).2.length ≤ l.length := by
  induction l with
  | nil => simp [readNumberChars]
  | cons c cs ih =>
    simp only [readNumberChars]
    split
    · exact le_trans ih (Nat.le_succ _)
    · split
      · exact le_trans ih (Nat.le_succ _)
      · exact le_refl _

theorem readStringChars_length_le (quote : Char) (l : List Char) :
    (readStringChars quote l).2.length ≤ l.length := by
  induction l using readStringChars.induct quote with
  | case1 => simp [readStringChars]
  | case2 cs2 => rw [readStringChars.eq_def]; simp
  | case3 h => rw [readStringChars.eq_def]; simp [h]
  | case4 e cs2 h ih =>
    rw [readStringChars.eq_def]
    simp only [if_neg h, if_pos rfl, if_pos trivial, List.length_cons]
    omega
  | case5 e cs2 h1 h2 ih =>
    rw [readStringChars.eq_def]
    simp only [if_neg h1, if_neg h2, List.length_cons]
    omega

theorem mkNumberToken_ne_eof (ds : List Char) : mkNumberToken ds ≠ .Eof := by
  unfold mkNumberToken
  split <;> simp

theorem keywordOrIdentifier_ne_eof (s : String) : keywordOrIdentifier s ≠ .Eof := by
  intro h
  unfold keywordOrIdentifier at h
  by_cases h1 : s = "space"
  · rw [if_pos h1] at h; exact Token.noConfusion h
  rw [if_neg h1] at h
  by_cases h2 : s = "end"
  · rw [if_pos h2] at h; exact Token.noConfusion h
  rw [if_neg h2] at h
  by_cases h3 : s = "make"
  · rw [if_pos h3] at h; exact Token.noConfusion h
  rw [if_neg h3] at h
  by_cases h4 : s = "inspace"
  · rw [if_pos h4] at h; exact Token.noConfusion h
  rw [if_neg h4] at h
  by_cases h5 : s = "call"
  · rw [if_pos h5] at h; exact Token.noConfusion h
  rw [if_neg h5] at h
  by_cases h6 : s = "text"
  · rw [if_pos h6] at h; exact Token.noConfusion h
  rw [if_neg h6] at h
  by_cases h7 : s = "pub"
  · rw [if_pos h7] at h; exact Token.noConfusion h
  rw [if_neg h7] at h
  by_cases h8 : s = "subpub"
  · rw [if_pos h8] at h; exact Token.noConfusion h
  rw [if_neg h8] at h
  by_cases h9 : s = "function"
  · rw [if_pos h9] at h; exact Token.noConfusion h
  rw [if_neg h9] at h
  by_cases h10 : s = "return"
  · rw [if_pos h10] at h; exact Token.noConfusion h
  rw [if_neg h10] at h
  by_cases h11 : s = "if"
  · rw [if_pos h11] at h; exact Token.noConfusion h
  rw [if_neg h11] at h
  by_cases h12 : s = "else"
  · rw [if_pos h12] at h; exact Token.noConfusion h
  rw [if_neg h12] at h
  by_cases h13 : s = "while"
  · rw [if_pos h13] at h; exact Token.noConfusion h
  rw [if_neg h13] at h
  by_cases h14 : s = "for"
  · rw [if_pos h14] at h; exact Token.noConfusion h
  rw [if_neg h14] at h
  by_cases h15 : s = "break"
  · rw [if_pos h15] at h; exact Token.noConfusion h
  rw [if_neg h15] at h
  by_cases h16 : s = "continue"
  · rw [if_pos h16] at h; exact Token.noConfusion h
  rw [if_neg h16] at h
  by_cases h17 : s = "let"
  · rw [if_pos h17] at h; exact Token.noConfusion h
  rw [if_neg h17] at h
  exact Token.noConfusion h


theorem tail_length_le (cs : List Char) : cs.tail.length ≤ cs.length := by
  cases cs <;> simp

theorem readNumberChars_cons_le (c : Char) (cs : List Char) (h : c.isDigit = true) :
    (readNumberChars (c :: cs)).2.length ≤ cs.length := by
  rw [readNumberChars.eq_def]
  simp only [h, if_true]
  exact readNumberChars_length_le cs

theorem readIdentChars_cons_le (c : Char) (cs : List Char)
    (h : (c.isAlphanum || c = '_') = true) :
    (readIdentChars (c :: cs)).2.length ≤ cs.length := by
  rw [readIdentChars.eq_def]
  simp only [h, if_true]
  exact readIdentChars_length_le cs

theorem alphaOrUnderscore_alphanum (c : Char) (h : (c.isAlpha || c = '_') = true) :
    (c.isAlphanum || c = '_') = true := by
  simp only [Bool.or_eq_true] at h ⊢
  cases h with
  | inl h2 => exact Or.inl (by simp [Char.isAlphanum, h2])
  | inr h2 => exact Or.inr h2

/-- Every returning arm of `next_token` yields a token other than `Eof`
and consumes at least the current character: at most `cs` remains. -/
theorem nextTokenCore_spec (c : Char) (cs : List Char) (t : Token) (r : List Char)
    (h : nextTokenCore c cs = some (t, r)) :
    t ≠ .Eof ∧ r.length ≤ cs.length := by
  unfold nextTokenCore at h
  by_cases h1 : (c = '\'' && cs.head? = some '\'') = true
  · rw [if_pos h1] at h
    exact Option.noConfusion h
  rw [if_neg h1] at h
  by_cases h2 : c = '+'
  · rw [if_pos h2] at h
    injection h with h2
    injection h2 with ha hb
    subst ha; subst hb
    exact ⟨fun hh => Token.noConfusion hh, le_refl _⟩
  rw [if_neg h2] at h
  by_cases h3 : c = '-'
  · rw [if_pos h3] at h
    by_cases h3a : cs.head? = some '>'
    · rw [if_pos h3a] at h
      injection h with h2
      injection h2 with ha hb
      subst ha; subst hb
      exact ⟨fun hh => Token.noConfusion hh, tail_length_le cs⟩
    · rw [if_neg h3a] at h
      injection h with h2
      injection h2 with ha hb
      subst ha; subst hb
      exact ⟨fun hh => Token.noConfusion hh, le_refl _⟩
  rw [if_neg h3] at h
  by_cases h4 : c = '—'
  · rw [if_pos h4] at h
    injection h with h2
    injection h2 with ha hb
    subst ha; subst hb
    exact ⟨fun hh => Token.noConfusion hh, le_refl _⟩
  rw [if_neg h4] at h
  by_cases h5 : c = '*'
  · rw [if_pos h5] at h
    injection h with h2
    injection h2 with ha hb
    subst ha; subst hb
    exact ⟨fun hh => Token.noConfusion hh, le_refl _⟩
  rw [if_neg h5] at h
  by_cases h6 : c = '/'
  · rw [if_pos h6] at h
    injection h with h2
    injection h2 with ha hb
    subst ha; subst hb
    exact ⟨fun hh => Token.noConfusion hh, le_refl _⟩
  rw [if_neg h6] at h
  by_cases h7 : c = '%'
  · rw [if_pos h7] at h
    injection h with h2
    injection h2 with ha hb
    subst ha; subst hb
    exact ⟨fun hh => Token.noConfusion hh, le_refl _⟩
  rw [if_neg h7] at h
  by_cases h8 : c = '='
  · rw [if_pos h8] at h
    by_cases h8a : cs.head? = some '='
    · rw [if_pos h8a] at h
      injection h with h2
      injection h2 with ha hb
      subst ha; subst hb
      exact ⟨fun hh => Token.noConfusion hh, tail_length_le cs⟩
    · rw [if_neg h8a] at h
      injection h with h2
      injection h2 with ha hb
      subst ha; subst hb
      exact ⟨fun hh => Token.noConfusion hh, le_refl _⟩
  rw [if_neg h8] at h
  by_cases h9 : c = '!'
  · rw [if_pos h9] at h
    by_cases h9a : cs.head? = some '='
    · rw [if_pos h9a] at h
      injection h with h2
      injection h2 with ha hb
      subst ha; subst hb
      exact ⟨fun hh => Token.noConfusion hh, tail_length_le cs⟩
    · rw [if_neg h9a] at h
      injection h with h2
      injection h2 with ha hb
      subst ha; subst hb
      exact ⟨fun hh => Token.noConfusion hh, le_refl _⟩
  rw [if_neg h9] at h
  by_cases h10 : c = '<'
  · rw [if_pos h10] at h
    by_cases h10a : cs.head? = some '='
    · rw [if_pos h10a] at h
      injection h with h2
      injection h2 with ha hb
      subst ha; subst hb
      exact ⟨fun hh => Token.noConfusion hh, tail_length_le cs⟩
    · rw [if_neg h10a] at h
      injection h with h2
      injection h2 with ha hb
      subst ha; subst hb
      exact ⟨fun hh => Token.noConfusion hh, le_refl _⟩
  rw [if_neg h10] at h
  by_cases h11 : c = '>'
  · rw [if_pos h11] at h
    by_cases h11a : cs.head? = some '='
    · rw [if_pos h11a] at h
      injection h with h2
      injection h2 with ha hb
      subst ha; subst hb
      exact ⟨fun hh => Token.noConfusion hh, tail_length_le cs⟩
    · rw [if_neg h11a] at h
      injection h with h2
      injection h2 with ha hb
      subst ha; subst hb
      exact ⟨fun hh => Token.noConfusion hh, le_refl _⟩
  rw [if_neg h11] at h
  by_cases h12 : c = '&'
  · rw [if_pos h12] at h
    by_cases h12a : cs.head? = some '&'
    · rw [if_pos h12a] at h
      injection h with h2
      injection h2 with ha hb
      subst ha; subst hb
      exact ⟨fun hh => Token.noConfusion hh, tail_length_le cs⟩
    · rw [if_neg h12a] at h
      injection h with h2
      injection h2 with ha hb
      subst ha; subst hb
      exact ⟨fun hh => Token.noConfusion hh, le_refl _⟩
  rw [if_neg h12] at h
  by_cases h13 : c = '|'
  · rw [if_pos h13] at h
    by_cases h13a : cs.head? = some '|'
    · rw [if_pos h13a] at h
      injection h with h2
      injection h2 with ha hb
      subst ha; subst hb
      exact ⟨fun hh => Token.noConfusion hh, tail_length_le cs⟩
    · rw [if_neg h13a] at h
      injection h with h2
      injection h2 with ha hb
      subst ha; subst hb
      exact ⟨fun hh => Token.noConfusion hh, le_refl _⟩
  rw [if_neg h13] at h
  by_cases h14 : c = '('
  · rw [if_pos h14] at h
    injection h with h2
    injection h2 with ha hb
    subst ha; subst hb
    exact ⟨fun hh => Token.noConfusion hh, le_refl _⟩
  rw [if_neg h14] at h
  by_cases h15 : c = ')'
  · rw [if_pos h15] at h
    injection h with h2
    injection h2 with ha hb
    subst ha; subst hb
    exact ⟨fun hh => Token.noConfusion hh, le_refl _⟩
  rw [if_neg h15] at h
  by_cases h16 : c = '{'
  · rw [if_pos h16] at h
    injection h with h2
    injection h2 with ha hb
    subst ha; subst hb
    exact ⟨fun hh => Token.noConfusion hh, le_refl _⟩
  rw [if_neg h16] at h
  by_cases h17 : c = '}'
  · rw [if_pos h17] at h
    injection h with h2
    injection h2 with ha hb
    subst ha; subst hb
    exact ⟨fun hh => Token.noConfusion hh, le_refl _⟩
  rw [if_neg h17] at h
  by_cases h18 : c = '['
  · rw [if_pos h18] at h
    injection h with h2
    injection h2 with ha hb
    subst ha; subst hb
    exact ⟨fun hh => Token.noConfusion hh, le_refl _⟩
  rw [if_neg h18] at h
  by_cases h19 : c = ']'
  · rw [if_pos h19] at h
    injection h with h2
    injection h2 with ha hb
    subst ha; subst hb
    exact ⟨fun hh => Token.noConfusion hh, le_refl _⟩
  rw [if_neg h19] at h
  by_cases h20 : c = ';'
  · rw [if_pos h20] at h
    injection h with h2
    injection h2 with ha hb
    subst ha; subst hb
    exact ⟨fun hh => Token.noConfusion hh, le_refl _⟩
  rw [if_neg h20] at h
  by_cases h21 : c = ':'
  · rw [if_pos h21] at h
    injection h with h2
    injection h2 with ha hb
    subst ha; subst hb
    exact ⟨fun hh => Token.noConfusion hh, le_refl _⟩
  rw [if_neg h21] at h
  by_cases h22 : c = ','
  · rw [if_pos h22] at h
    injection h with h2
    injection h2 with ha hb
    subst ha; subst hb
    exact ⟨fun hh => Token.noConfusion hh, le_refl _⟩
  rw [if_neg h22] at h
  by_cases h23 : c = '.'
  · rw [if_pos h23] at h
    injection h with h2
    injection h2 with ha hb
    subst ha; subst hb
    exact ⟨fun hh => Token.noConfusion hh, le_refl _⟩
  rw [if_neg h23] at h
  by_cases h24 : (c = '\"' || c = '\'') = true
  · rw [if_pos h24] at h
    injection h with h2
    injection h2 with ha hb
    subst ha; subst hb
    exact ⟨fun hh => Token.noConfusion hh, readStringChars_length_le c cs⟩
  rw [if_neg h24] at h
  by_cases h25 : c.isDigit = true
  · rw [if_pos h25] at h
    injection h with h2
    injection h2 with ha hb
    subst ha; subst hb
    exact ⟨mkNumberToken_ne_eof _, readNumberChars_cons_le c cs h25⟩
  rw [if_neg h25] at h
  by_cases h26 : (c.isAlpha || c = '_') = true
  · rw [if_pos h26] at h
    injection h with h2
    injection h2 with ha hb
    subst ha; subst hb
    exact ⟨keywordOrIdentifier_ne_eof _,
      readIdentChars_cons_le c cs (alphaOrUnderscore_alphanum c h26)⟩
  rw [if_neg h26] at h
  exact Option.noConfusion h

/-- `Lexer::next_token`.  The source loops `{ skip_whitespace; match ... }`;
the comment arm calls `skip_comment` (consume to the newline) and the
unrecognized-character arm just advances, and both re-enter the loop.
The loop is embedded as structural recursion over the remaining
characters, with an `inComment` flag standing for being inside
`skip_comment`; `nextTokenLoop_comment` and `nextTokenLoop_whitespace`
below check this against the stand-alone `skipComment`/`skipWhitespace`
embeddings of the source helpers. -/
def nextTokenLoop : Bool → List Char → Token × List Char
  | _, [] => (.Eof, [])
  | true, c :: cs =>
    -- `skip_comment` stops at the newline and leaves it to
    -- `skip_whitespace`; consuming it here is the same thing
    if c = '\n' then nextTokenLoop false cs else nextTokenLoop true cs
  | false, c :: cs =>
    if c.isWhitespace then nextTokenLoop false cs
    else if h : (nextTokenCore c cs).isSome then (nextTokenCore c cs).get h
    else if c = '\'' && cs.head? = some '\'' then nextTokenLoop true cs
    else nextTokenLoop false cs

/-- `Lexer::next_token` from the start state. -/
def nextToken (input : List Char) : Token × List Char :=
  nextTokenLoop false input

/-- The comment mode of `nextTokenLoop` is exactly `skip_comment` followed
by re-entering the loop. -/
theorem nextTokenLoop_comment (cs : List Char) :
    nextTokenLoop true cs = nextTokenLoop false (skipComment cs) := by
  induction cs with
  | nil => rfl
  | cons c cs ih =>
    by_cases h : c = '\n'
    · subst h
      simp [nextTokenLoop, skipComment, Char.isWhitespace]
    · simp [nextTokenLoop, skipComment, h, ih]

/-- Leading whitespace is transparent to `nextTokenLoop`, as it is to the
source loop via `skip_whitespace`. -/
theorem nextTokenLoop_whitespace (input : List Char) :
    nextTokenLoop false input = nextTokenLoop false (skipWhitespace input) := by
  induction input with
  | nil => rfl
  | cons c cs ih =>
    by_cases h : c.isWhitespace
    · simp [nextTokenLoop, skipWhitespace, h, ih]
    · simp [nextTokenLoop, skipWhitespace, h]

/-- A non-`Eof` token consumes at least one character. -/
theorem nextTokenLoop_consumes (l : List Char) : ∀ (m : Bool),
    (nextTokenLoop m l).1 ≠ .Eof → (nextTokenLoop m l).2.length < l.length := by
  induction l with
  | nil => intro m h; exact absurd (rfl : Token.Eof = Token.Eof) (by rw [nextTokenLoop] at h; exact h)
  | cons c cs ih =>
    intro m h
    cases m with
    | true =>
      by_cases hn : c = '\n'
      · rw [nextTokenLoop, if_pos hn] at h ⊢
        exact Nat.lt_succ_of_lt (ih false h)
      · rw [nextTokenLoop, if_neg hn] at h ⊢
        exact Nat.lt_succ_of_lt (ih true h)
    | false =>
      by_cases hw : c.isWhitespace
      · rw [nextTokenLoop, if_pos hw] at h ⊢
        exact Nat.lt_succ_of_lt (ih false h)
      · by_cases hs : (nextTokenCore c cs).isSome
        · rw [nextTokenLoop, if_neg hw, dif_pos hs] at h ⊢
          have hspec := nextTokenCore_spec c cs ((nextTokenCore c cs).get hs).1
            ((nextTokenCore c cs).get hs).2 (by rw [Option.some_get])
          exact Nat.lt_succ_of_le hspec.2
        · rw [nextTokenLoop, if_neg hw, dif_neg hs] at h ⊢
          by_cases hcm : (c = '\'' && cs.head? = some '\'') = true
          · rw [if_pos hcm] at h ⊢
            exact Nat.lt_succ_of_lt (ih true h)
          · rw [if_neg hcm] at h ⊢
            exact Nat.lt_succ_of_lt (ih false h)

theorem nextToken_consumes (l : List Char)
    (h : (nextToken l).1 ≠ .Eof) : (nextToken l).2.length < l.length :=
  nextTokenLoop_consumes l false h

/-- `Lexer::tokenize`: collect tokens until (and including) `Eof`.  The
source loop is embedded with a fuel counter; one character is consumed
per emitted token, so `input.length + 1` rounds always suffice
(see `tokenize`). -/
def tokenizeGo : Nat → List Char → List Token
  | 0, _ => []
  | fuel + 1, input =>
    let p := nextToken input
    if p.1 = .Eof then [.Eof] else p.1 :: tokenizeGo fuel p.2

/-- `Lexer::tokenize` with the always-sufficient fuel. -/
def tokenize (input : List Char) : List Token :=
  tokenizeGo (input.length + 1) input

/-- `Lexer::new(s).tokenize()`: the source turns the string into its
character sequence. -/
def tokenizeStr (s : String) : List Token :=
  tokenize s.data

theorem tokenizeGo_spec (fuel : Nat) : ∀ (l : List Char), l.length < fuel →
    (tokenizeGo fuel l).getLast? = some .Eof ∧
      ∀ t ∈ (tokenizeGo fuel l).dropLast, t ≠ Token.Eof := by
  induction fuel with
  | zero => intro l h; exact absurd h (by omega)
  | succ fuel ih =>
    intro l hl
    by_cases he : (nextToken l).1 = .Eof
    · rw [tokenizeGo, if_pos he]
      exact ⟨rfl, by simp⟩
    · rw [tokenizeGo, if_neg he]
      have hcons := nextToken_consumes l he
      have hrest := ih (nextToken l).2 (by omega)
      have hne : tokenizeGo fuel (nextToken l).2 ≠ [] := by
        intro hnil; rw [hnil] at hrest; exact Option.noConfusion hrest.1
      rcases List.exists_cons_of_ne_nil hne with ⟨x, xs, hx⟩
      rw [hx] at hrest
      refine ⟨?_, ?_⟩
      · rw [hx]
        exact hrest.1
      · intro t ht
        rw [hx, List.dropLast_cons_of_ne_nil (by simp)] at ht
        rcases List.mem_cons.mp ht with h1 | h2
        · exact h1 ▸ he
        · exact hrest.2 t (hx ▸ h2)

/-! ## Abstract syntax (src/ast.rs) -/

/-- `BinaryOp` from src/ast.rs. -/
inductive BinaryOp where
  | Add | Subtract | Multiply | Divide | Modulo
  | Equal | NotEqual | Less | LessEqual | Greater | GreaterEqual
  | And | Or
  deriving Repr, DecidableEq

/-- `UnaryOp` from src/ast.rs. -/
inductive UnaryOp where
  | Negate | Not
  deriving Repr, DecidableEq

/-- `Expr` from src/ast.rs (`Expr::Float`/`Expr::String` renamed as for
`Token`; `Float` payload is the literal text). -/
inductive Expr where
  | Number (n : Int)
  | FloatLit (raw : String)
  | StringLit (s : String)
  | Boolean (b : Bool)
  | Identifier (name : String)
  | Array (elements : List Expr)
  | Object (pairs : List (String × Expr))
  | Binary (left : Expr) (op : BinaryOp) (right : Expr)
  | Unary (op : UnaryOp) (expr : Expr)
  | Call (func : Expr) (args : List Expr)
  | Index (object : Expr) (index : Expr)
  | Member (object : Expr) (member : String)
  deriving Repr

/-- `Stmt` from src/ast.rs. -/
inductive Stmt where
  | Expression (e : Expr)
  | Let (name : String) (value : Expr)
  | Assign (target : String) (value : Expr)
  | If (condition : Expr) (then_branch : List Stmt) (else_branch : Option (List Stmt))
  | While (condition : Expr) (body : List Stmt)
  | For (init : Option Stmt) (condition : Option Expr) (increment : Option Expr)
      (body : List Stmt)
  | FunctionDef (name : String) (params : List String) (body : List Stmt)
  | Return (e : Option Expr)
  | Break
  | Continue
  | Space (name : String) (body : List Stmt)
  | Pub (name : String) (kind : String) (body : List Stmt)
  | Subpub (name : String) (compilation_type : String) (body : List Stmt)
  | Block (stmts : List Stmt)
  deriving Repr

/-- `Program` from src/ast.rs. -/
structure Program where
  statements : List Stmt
  deriving Repr

/-! ## Parser (src/parser.rs)

`Parser` holds the token vector and a forward-only cursor; the
embedding carries the remaining-token suffix.  `current_token` out of
range yields `Eof` (the source's `unwrap_or`), `advance` is capped at
the end (dropping the head of an empty suffix is the identity, the same
cap).  Every parsing method threads a fuel counter, decremented at each
call; `PRes.fuelOut` marks fuel exhaustion and is distinct from either
source outcome (`Ok`/`Err`). -/

/-- Result of running a parsing method: the value and remaining tokens,
a diagnostic, or fuel exhaustion (no source counterpart). -/
inductive PRes (α : Type) where
  | ok (a : α) (rest : List Token)
  | err (msg : String)
  | fuelOut

/-- A parsing method: remaining tokens to result. -/
def ParseM (α : Type) : Type := List Token → PRes α

def ParseM.pure (a : α) : ParseM α := fun ts => .ok a ts

def ParseM.bind (m : ParseM α) (f : α → ParseM β) : ParseM β := fun ts =>
  match m ts with
  | .ok a ts2 => f a ts2
  | .err e => .err e
  | .fuelOut => .fuelOut

instance : Monad ParseM where
  pure := ParseM.pure
  bind := ParseM.bind

/-- `Parser::current_token` (out of range: `Eof`). -/
def currentTok : ParseM Token := fun ts => .ok (ts.head?.getD .Eof) ts

/-- `Parser::advance`. -/
def advanceTok : ParseM Unit := fun ts => .ok () ts.tail

/-- An inline `return Err(...)`. -/
def failP (msg : String) : ParseM α := fun _ => .err msg

/-- `std::mem::discriminant` comparison used by `Parser::expect`: tokens
match by constructor, payloads are ignored (so `expect(Identifier("name"))`
accepts any identifier). -/
def sameDiscriminant : Token → Token → Bool
  | .Space, .Space => true
  | .End, .End => true
  | .Make, .Make => true
  | .Inspace, .Inspace => true
  | .Call, .Call => true
  | .Text, .Text => true
  | .Pub, .Pub => true
  | .Subpub, .Subpub => true
  | .Function, .Function => true
  | .Return, .Return => true
  | .If, .If => true
  | .Else, .Else => true
  | .While, .While => true
  | .For, .For => true
  | .Break, .Break => true
  | .Continue, .Continue => true
  | .Let, .Let => true
  | .Plus, .Plus => true
  | .Minus, .Minus => true
  | .Star, .Star => true
  | .Slash, .Slash => true
  | .Percent, .Percent => true
  | .Equal, .Equal => true
  | .EqualEqual, .EqualEqual => true
  | .NotEqual, .NotEqual => true
  | .Less, .Less => true
  | .LessEqual, .LessEqual => true
  | .Greater, .Greater => true
  | .GreaterEqual, .GreaterEqual => true
  | .And, .And => true
  | .Or, .Or => true
  | .Not, .Not => true
  | .LeftParen, .LeftParen => true
  | .RightParen, .RightParen => true
  | .LeftBrace, .LeftBrace => true
  | .RightBrace, .RightBrace => true
  | .LeftBracket, .LeftBracket => true
  | .RightBracket, .RightBracket => true
  | .Semicolon, .Semicolon => true
  | .Colon, .Colon => true
  | .Comma, .Comma => true
  | .Dot, .Dot => true
  | .Arrow, .Arrow => true
  | .DashArrow, .DashArrow => true
  | .Eof, .Eof => true
  | .Identifier _, .Identifier _ => true
  | .StringLit _, .StringLit _ => true
  | .Number _, .Number _ => true
  | .FloatLit _, .FloatLit _ => true
  | _, _ => false

/-- `Parser::expect`. -/
def expectTok (expected : Token) : ParseM Unit := fun ts =>
  if sameDiscriminant (ts.head?.getD .Eof) expected then .ok () ts.tail
  else .err ("Expected " ++ tokenDebug expected ++ ", got "
    ++ tokenDebug (ts.head?.getD .Eof))

/-- `Parser::parse_equality`'s operator table. -/
def eqOpOf : Token → Option BinaryOp
  | .EqualEqual => some .Equal
  | .NotEqual => some .NotEqual
  | _ => none

/-- `Parser::parse_comparison`'s operator table. -/
def cmpOpOf : Token → Option BinaryOp
  | .Less => some .Less
  | .LessEqual => some .LessEqual
  | .Greater => some .Greater
  | .GreaterEqual => some .GreaterEqual
  | _ => none

/-- `Parser::parse_additive`'s operator table. -/
def addOpOf : Token → Option BinaryOp
  | .Plus => some .Add
  | .Minus => some .Subtract
  | _ => none

/-- `Parser::parse_multiplicative`'s operator table. -/
def mulOpOf : Token → Option BinaryOp
  | .Star => some .Multiply
  | .Slash => some .Divide
  | .Percent => some .Modulo
  | _ => none

mutual

/-- `Parser::parse_statement`. -/
def parseStatement : Nat → ParseM Stmt
  | 0 => fun _ => .fuelOut
  | fuel + 1 => do
    match ← currentTok with
    | .Space => parseSpace fuel
    | .Pub => parsePub fuel
    | .Subpub => parseSubpub fuel
    | .Let => parseLet fuel
    | .If => parseIf fuel
    | .While => parseWhile fuel
    | .For => parseFor fuel
    | .Return => parseReturn fuel
    | .Break => do
      advanceTok
      expectTok .Semicolon
      ParseM.pure Stmt.Break
    | .Continue => do
      advanceTok
      expectTok .Semicolon
      ParseM.pure Stmt.Continue
    | .LeftBrace => parseBlock fuel
    | .Function => parseFunctionDef fuel
    | _ => do
      let e ← parseExpression fuel
      expectTok .Semicolon
      ParseM.pure (Stmt.Expression e)

/-- The statement-collection loop `while current != RightBrace && current
!= Eof { body.push(parse_statement()?) }` shared by every brace-delimited
body in the source. -/
def parseStmtListUntil : Nat → ParseM (List Stmt)
  | 0 => fun _ => .fuelOut
  | fuel + 1 => do
    let cur ← currentTok
    if cur = .RightBrace ∨ cur = .Eof then ParseM.pure []
    else do
      let s ← parseStatement fuel
      let rest ← parseStmtListUntil fuel
      ParseM.pure (s :: rest)

/-- `Parser::parse_space`. -/
def parseSpace : Nat → ParseM Stmt
  | 0 => fun _ => .fuelOut
  | fuel + 1 => do
    expectTok .Space
    let name ← (do
      match ← currentTok with
      | .Identifier n => do
        advanceTok
        ParseM.pure n
      | _ => failP "Expected identifier after 'space'")
    expectTok (.Identifier "name")
    expectTok .LeftBrace
    let body ← parseStmtListUntil fuel
    expectTok .RightBrace
    expectTok .End
    expectTok .Make
    expectTok .Semicolon
    ParseM.pure (Stmt.Space name body)

/-- `Parser::parse_pub`. -/
def parsePub : Nat → ParseM Stmt
  | 0 => fun _ => .fuelOut
  | fuel + 1 => do
    expectTok .Pub
    expectTok .Semicolon
    expectTok .LeftBrace
    let cur ← currentTok
    if cur = .Semicolon then advanceTok else ParseM.pure ()
    let kind := "interpretation"
    expectTok (.Identifier "com")
    let name ← (do
      match ← currentTok with
      | .StringLit s => do
        advanceTok
        ParseM.pure s
      | _ => failP "Expected string token")
    expectTok .LeftBrace
    let body ← parseStmtListUntil fuel
    expectTok .RightBrace
    expectTok .DashArrow
    ParseM.pure (Stmt.Pub name kind body)

/-- `Parser::parse_subpub`. -/
def parseSubpub : Nat → ParseM Stmt
  | 0 => fun _ => .fuelOut
  | fuel + 1 => do
    expectTok .Subpub
    expectTok .Semicolon
    expectTok .LeftBrace
    let body ← parseStmtListUntil fuel
    expectTok .RightBrace
    ParseM.pure (Stmt.Subpub "subpub_block" "compilation" body)

/-- `Parser::parse_let`. -/
def parseLet : Nat → ParseM Stmt
  | 0 => fun _ => .fuelOut
  | fuel + 1 => do
    expectTok .Let
    let name ← (do
      match ← currentTok with
      | .Identifier n => do
        advanceTok
        ParseM.pure n
      | _ => failP "Expected identifier after 'let'")
    expectTok .Equal
    let value ← parseExpression fuel
    expectTok .Semicolon
    ParseM.pure (Stmt.Let name value)

/-- `Parser::parse_if`. -/
def parseIf : Nat → ParseM Stmt
  | 0 => fun _ => .fuelOut
  | fuel + 1 => do
    expectTok .If
    expectTok .LeftParen
    let condition ← parseExpression fuel
    expectTok .RightParen
    expectTok .LeftBrace
    let thenBranch ← parseStmtListUntil fuel
    expectTok .RightBrace
    let cur ← currentTok
    if cur = .Else then do
      advanceTok
      expectTok .LeftBrace
      let branch ← parseStmtListUntil fuel
      expectTok .RightBrace
      ParseM.pure (Stmt.If condition thenBranch (some branch))
    else
      ParseM.pure (Stmt.If condition thenBranch none)

/-- `Parser::parse_while`. -/
def parseWhile : Nat → ParseM Stmt
  | 0 => fun _ => .fuelOut
  | fuel + 1 => do
    expectTok .While
    expectTok .LeftParen
    let condition ← parseExpression fuel
    expectTok .RightParen
    expectTok .LeftBrace
    let body ← parseStmtListUntil fuel
    expectTok .RightBrace
    ParseM.pure (Stmt.While condition body)

/-- `Parser::parse_for`. -/
def parseFor : Nat → ParseM Stmt
  | 0 => fun _ => .fuelOut
  | fuel + 1 => do
    expectTok .For
    expectTok .LeftParen
    let cur ← currentTok
    let init ← (if cur ≠ .Semicolon then do
        let s ← parseStatement fuel
        ParseM.pure (some s)
      else do
        advanceTok
        ParseM.pure none)
    let cur2 ← currentTok
    let condition ← (if cur2 ≠ .Semicolon then do
        let e ← parseExpression fuel
        ParseM.pure (some e)
      else ParseM.pure none)
    expectTok .Semicolon
    let cur3 ← currentTok
    let increment ← (if cur3 ≠ .RightParen then do
        let e ← parseExpression fuel
        ParseM.pure (some e)
      else ParseM.pure none)
    expectTok .RightParen
    expectTok .LeftBrace
    let body ← parseStmtListUntil fuel
    expectTok .RightBrace
    ParseM.pure (Stmt.For init condition increment body)

/-- `Parser::parse_return`. -/
def parseReturn : Nat → ParseM Stmt
  | 0 => fun _ => .fuelOut
  | fuel + 1 => do
    expectTok .Return
    let cur ← currentTok
    let value ← (if cur ≠ .Semicolon then do
        let e ← parseExpression fuel
        ParseM.pure (some e)
      else ParseM.pure none)
    expectTok .Semicolon
    ParseM.pure (Stmt.Return value)

/-- `Parser::parse_block`. -/
def parseBlock : Nat → ParseM Stmt
  | 0 => fun _ => .fuelOut
  | fuel + 1 => do
    expectTok .LeftBrace
    let statements ← parseStmtListUntil fuel
    expectTok .RightBrace
    ParseM.pure (Stmt.Block statements)

/-- The parameter-collection loop of `Parser::parse_function_def`. -/
def parseParams : Nat → ParseM (List String)
  | 0 => fun _ => .fuelOut
  | fuel + 1 => do
    let cur ← currentTok
    if cur = .RightParen ∨ cur = .Eof then ParseM.pure []
    else
      match cur with
      | .Identifier p => do
        advanceTok
        let cur2 ← currentTok
        if cur2 = .Comma then advanceTok else ParseM.pure ()
        let rest ← parseParams fuel
        ParseM.pure (p :: rest)
      | _ => failP "Expected parameter name"

/-- `Parser::parse_function_def`. -/
def parseFunctionDef : Nat → ParseM Stmt
  | 0 => fun _ => .fuelOut
  | fuel + 1 => do
    expectTok .Function
    let name ← (do
      match ← currentTok with
      | .Identifier n => do
        advanceTok
        ParseM.pure n
      | _ => failP "Expected function name")
    expectTok .LeftParen
    let params ← parseParams fuel
    expectTok .RightParen
    expectTok .LeftBrace
    let body ← parseStmtListUntil fuel
    expectTok .RightBrace
    ParseM.pure (Stmt.FunctionDef name params body)

/-- `Parser::parse_expression`. -/
def parseExpression : Nat → ParseM Expr
  | 0 => fun _ => .fuelOut
  | fuel + 1 => parseLogicalOr fuel

/-- `Parser::parse_logical_or`. -/
def parseLogicalOr : Nat → ParseM Expr
  | 0 => fun _ => .fuelOut
  | fuel + 1 => do
    let left ← parseLogicalAnd fuel
    parseLogicalOrLoop fuel left

/-- The `while current == Or` loop of `parse_logical_or`. -/
def parseLogicalOrLoop : Nat → Expr → ParseM Expr
  | 0, _ => fun _ => .fuelOut
  | fuel + 1, left => do
    let cur ← currentTok
    if cur = .Or then do
      advanceTok
      let right ← parseLogicalAnd fuel
      parseLogicalOrLoop fuel (Expr.Binary left .Or right)
    else ParseM.pure left

/-- `Parser::parse_logical_and`. -/
def parseLogicalAnd : Nat → ParseM Expr
  | 0 => fun _ => .fuelOut
  | fuel + 1 => do
    let left ← parseEquality fuel
    parseLogicalAndLoop fuel left

/-- The `while current == And` loop of `parse_logical_and`. -/
def parseLogicalAndLoop : Nat → Expr → ParseM Expr
  | 0, _ => fun _ => .fuelOut
  | fuel + 1, left => do
    let cur ← currentTok
    if cur = .And then do
      advanceTok
      let right ← parseEquality fuel
      parseLogicalAndLoop fuel (Expr.Binary left .And right)
    else ParseM.pure left

/-- `Parser::parse_equality`. -/
def parseEquality : Nat → ParseM Expr
  | 0 => fun _ => .fuelOut
  | fuel + 1 => do
    let left ← parseComparison fuel
    parseEqualityLoop fuel left

/-- The operator loop of `parse_equality`. -/
def parseEqualityLoop : Nat → Expr → ParseM Expr
  | 0, _ => fun _ => .fuelOut
  | fuel + 1, left => do
    let cur ← currentTok
    match eqOpOf cur with
    | some op => do
      advanceTok
      let right ← parseComparison fuel
      parseEqualityLoop fuel (Expr.Binary left op right)
    | none => ParseM.pure left

/-- `Parser::parse_comparison`. -/
def parseComparison : Nat → ParseM Expr
  | 0 => fun _ => .fuelOut
  | fuel + 1 => do
    let left ← parseAdditive fuel
    parseComparisonLoop fuel left

/-- The operator loop of `parse_comparison`. -/
def parseComparisonLoop : Nat → Expr → ParseM Expr
  | 0, _ => fun _ => .fuelOut
  | fuel + 1, left => do
    let cur ← currentTok
    match cmpOpOf cur with
    | some op => do
      advanceTok
      let right ← parseAdditive fuel
      parseComparisonLoop fuel (Expr.Binary left op right)
    | none => ParseM.pure left

/-- `Parser::parse_additive`. -/
def parseAdditive : Nat → ParseM Expr
  | 0 => fun _ => .fuelOut
  | fuel + 1 => do
    let left ← parseMultiplicative fuel
    parseAdditiveLoop fuel left

/-- The operator loop of `parse_additive`. -/
def parseAdditiveLoop : Nat → Expr → ParseM Expr
  | 0, _ => fun _ => .fuelOut
  | fuel + 1, left => do
    let cur ← currentTok
    match addOpOf cur with
    | some op => do
      advanceTok
      let right ← parseMultiplicative fuel
      parseAdditiveLoop fuel (Expr.Binary left op right)
    | none => ParseM.pure left

/-- `Parser::parse_multiplicative`. -/
def parseMultiplicative : Nat → ParseM Expr
  | 0 => fun _ => .fuelOut
  | fuel + 1 => do
    let left ← parseUnary fuel
    parseMultiplicativeLoop fuel left

/-- The operator loop of `parse_multiplicative`. -/
def parseMultiplicativeLoop : Nat → Expr → ParseM Expr
  | 0, _ => fun _ => .fuelOut
  | fuel + 1, left => do
    let cur ← currentTok
    match mulOpOf cur with
    | some op => do
      advanceTok
      let right ← parseUnary fuel
      parseMultiplicativeLoop fuel (Expr.Binary left op right)
    | none => ParseM.pure left

/-- `Parser::parse_unary`. -/
def parseUnary : Nat → ParseM Expr
  | 0 => fun _ => .fuelOut
  | fuel + 1 => do
    match ← currentTok with
    | .Not => do
      advanceTok
      let e ← parseUnary fuel
      ParseM.pure (Expr.Unary .Not e)
    | .Minus => do
      advanceTok
      let e ← parseUnary fuel
      ParseM.pure (Expr.Unary .Negate e)
    | _ => parsePostfixExpr fuel

/-- `Parser::parse_postfix`. -/
def parsePostfixExpr : Nat → ParseM Expr
  | 0 => fun _ => .fuelOut
  | fuel + 1 => do
    let e ← parsePrimary fuel
    parsePostfixLoop fuel e

/-- The call/index/member loop of `parse_postfix`. -/
def parsePostfixLoop : Nat → Expr → ParseM Expr
  | 0, _ => fun _ => .fuelOut
  | fuel + 1, e => do
    match ← currentTok with
    | .LeftParen => do
      advanceTok
      let args ← parseCallArgs fuel
      expectTok .RightParen
      parsePostfixLoop fuel (Expr.Call e args)
    | .LeftBracket => do
      advanceTok
      let index ← parseExpression fuel
      expectTok .RightBracket
      parsePostfixLoop fuel (Expr.Index e index)
    | .Dot => do
      advanceTok
      match ← currentTok with
      | .Identifier m => do
        advanceTok
        parsePostfixLoop fuel (Expr.Member e m)
      | _ => failP "Expected member name after '.'"
    | _ => ParseM.pure e

/-- The argument loop of the postfix call arm: terminates on `RightParen`
or `Eof`. -/
def parseCallArgs : Nat → ParseM (List Expr)
  | 0 => fun _ => .fuelOut
  | fuel + 1 => do
    let cur ← currentTok
    if cur = .RightParen ∨ cur = .Eof then ParseM.pure []
    else do
      let e ← parseExpression fuel
      let cur2 ← currentTok
      if cur2 = .Comma then advanceTok else ParseM.pure ()
      let rest ← parseCallArgs fuel
      ParseM.pure (e :: rest)

/-- The argument loop of the `call.NAME(...)` primary: the source checks
only for `RightParen` here (no `Eof` guard). -/
def parseCallArgsNoEof : Nat → ParseM (List Expr)
  | 0 => fun _ => .fuelOut
  | fuel + 1 => do
    let cur ← currentTok
    if cur = .RightParen then ParseM.pure []
    else do
      let e ← parseExpression fuel
      let cur2 ← currentTok
      if cur2 = .Comma then advanceTok else ParseM.pure ()
      let rest ← parseCallArgsNoEof fuel
      ParseM.pure (e :: rest)

/-- The element loop of the array-literal primary. -/
def parseArrayElems : Nat → ParseM (List Expr)
  | 0 => fun _ => .fuelOut
  | fuel + 1 => do
    let cur ← currentTok
    if cur = .RightBracket ∨ cur = .Eof then ParseM.pure []
    else do
      let e ← parseExpression fuel
      let cur2 ← currentTok
      if cur2 = .Comma then advanceTok else ParseM.pure ()
      let rest ← parseArrayElems fuel
      ParseM.pure (e :: rest)

/-- `Parser::parse_primary`. -/
def parsePrimary : Nat → ParseM Expr
  | 0 => fun _ => .fuelOut
  | fuel + 1 => do
    let cur ← currentTok
    match cur with
    | .Number n => do
      advanceTok
      ParseM.pure (Expr.Number n)
    | .FloatLit f => do
      advanceTok
      ParseM.pure (Expr.FloatLit f)
    | .StringLit s => do
      advanceTok
      ParseM.pure (Expr.StringLit s)
    | .Identifier id => do
      advanceTok
      ParseM.pure (Expr.Identifier id)
    | .LeftParen => do
      advanceTok
      let e ← parseExpression fuel
      expectTok .RightParen
      ParseM.pure e
    | .LeftBracket => do
      advanceTok
      let elements ← parseArrayElems fuel
      expectTok .RightBracket
      ParseM.pure (Expr.Array elements)
    | .Call => do
      advanceTok
      expectTok .Dot
      match ← currentTok with
      | .Identifier funcName => do
        advanceTok
        expectTok .LeftParen
        let args ← parseCallArgsNoEof fuel
        expectTok .RightParen
        ParseM.pure (Expr.Call (Expr.Identifier funcName) args)
      | _ => failP "Expected function name after 'call.'"
    | _ => failP ("Unexpected token: " ++ tokenDebug cur)

end

/-- The `while current != Eof` loop of `Parser::parse`. -/
def parseTopLevel : Nat → ParseM (List Stmt)
  | 0 => fun _ => .fuelOut
  | fuel + 1 => do
    let cur ← currentTok
    if cur = .Eof then ParseM.pure []
    else do
      let s ← parseStatement fuel
      let rest ← parseTopLevel fuel
      ParseM.pure (s :: rest)

/-- `Parser::parse`. -/
def parseProgram (fuel : Nat) : ParseM Program := do
  let statements ← parseTopLevel fuel
  ParseM.pure (Program.mk statements)

/-- `Parser::new(input)` followed by `parse()`: the whole front end on a
source string. -/
def parseSource (fuel : Nat) (s : String) : PRes Program :=
  parseProgram fuel (tokenizeStr s)

/-! ## Values (src/ast.rs, `enum Value`) -/

/-- `Value` from src/ast.rs.  `Float` carries the literal text (the `f64`
payload is abstracted, see the header); `Object` is the insertion-ordered
embedding of the source's `HashMap`. -/
inductive Value where
  | Number (n : Int)
  | Float (raw : String)
  | String (s : String)
  | Boolean (b : Bool)
  | Array (elements : List Value)
  | Object (map : List (String × Value))
  | Void

mutual

/-- `Value::to_string`.  Floats print their carried literal text (the
source prints the shortest round-trip form of the `f64`); `Object`
iterates in insertion order (the source's `HashMap` order is
unspecified) — no claim observes either. -/
def valueToString : Value → String
  | .Number n => toString n
  | .Float raw => raw
  | .String s => s
  | .Boolean b => if b then "true" else "false"
  | .Array arr => "[" ++ String.intercalate ", " (valueListToStrings arr) ++ "]"
  | .Object map => "\x7b" ++ String.intercalate ", " (valuePairsToStrings map) ++ "\x7d"
  | .Void => "void"

def valueListToStrings : List Value → List String
  | [] => []
  | v :: vs => valueToString v :: valueListToStrings vs

def valuePairsToStrings : List (String × Value) → List String
  | [] => []
  | (k, v) :: rest => (k ++ ": " ++ valueToString v) :: valuePairsToStrings rest

end

mutual

/-- `format!("{:?}", value)` for the derived `Debug` of `Value` (floats
show their carried text). -/
def valueDebug : Value → String
  | .Number n => "Number(" ++ toString n ++ ")"
  | .Float raw => "Float(" ++ raw ++ ")"
  | .String s => "String(" ++ strDebug s ++ ")"
  | .Boolean b => "Boolean(" ++ (if b then "true" else "false") ++ ")"
  | .Array arr => "Array([" ++ String.intercalate ", " (valueListDebugs arr) ++ "])"
  | .Object map =>
    "Object(\x7b" ++ String.intercalate ", " (valuePairsDebugs map) ++ "\x7d)"
  | .Void => "Void"

def valueListDebugs : List Value → List String
  | [] => []
  | v :: vs => valueDebug v :: valueListDebugs vs

def valuePairsDebugs : List (String × Value) → List String
  | [] => []
  | (k, v) :: rest => (strDebug k ++ ": " ++ valueDebug v) :: valuePairsDebugs rest

end

/-- `Value::is_truthy`. -/
def Value.isTruthy : Value → Bool
  | .Boolean b => b
  | .Void => false
  | .Number n => n != 0
  | .String s => !s.isEmpty
  | .Array arr => !arr.isEmpty
  | .Object map => !map.isEmpty
  | _ => true

/-- `format!("{:?}", op)` for `BinaryOp`. -/
def binOpDebug : BinaryOp → String
  | .Add => "Add" | .Subtract => "Subtract" | .Multiply => "Multiply"
  | .Divide => "Divide" | .Modulo => "Modulo" | .Equal => "Equal"
  | .NotEqual => "NotEqual" | .Less => "Less" | .LessEqual => "LessEqual"
  | .Greater => "Greater" | .GreaterEqual => "GreaterEqual"
  | .And => "And" | .Or => "Or"

/-- `format!("{:?}", op)` for `UnaryOp`. -/
def unOpDebug : UnaryOp → String
  | .Negate => "Negate" | .Not => "Not"

/-! ## Evaluator (src/interpreter.rs)

`Interpreter` owns the globals map, the local-scope stack, the three
control-flow flags and (via `println!`/`print!`) standard output; all
of that is one state record here, with the scope stack held
innermost-first.  Expression evaluation is structurally recursive
(expressions never run statements — user functions are never invoked);
statement execution takes fuel, decremented at every call, with
`ExecRes.fuelOut` an embedding-only outcome.  `Res.panic` embeds a Rust
panic (reachable only through `unwrap` in string indexing). -/

/-- A scope frame / the globals map: `HashMap<String, Value>` as an
insertion-ordered association list. -/
abbrev Frame := List (String × Value)

/-- `HashMap::insert`: replace the existing binding or append. -/
def assocSet {β : Type} : List (String × β) → String → β → List (String × β)
  | [], k, v => [(k, v)]
  | (k0, v0) :: rest, k, v =>
    if k0 = k then (k, v) :: rest else (k0, v0) :: assocSet rest k v

/-- The interpreter state: `Interpreter`'s fields plus captured stdout.
`locals` is innermost-frame-first. -/
structure InterpSt where
  globals : Frame
  locals : List Frame
  returnValue : Option Value
  breakFlag : Bool
  continueFlag : Bool
  output : List String

/-- `Interpreter::new()`: builtins bound as sentinel strings, empty
locals, clear flags. -/
def initialInterpSt : InterpSt :=
  { globals := [("print", .String "builtin:print"), ("len", .String "builtin:len"),
      ("type", .String "builtin:type")]
    locals := []
    returnValue := none
    breakFlag := false
    continueFlag := false
    output := [] }

/-- The innermost-first search of `Interpreter::get_variable` over the
local frames. -/
def lookupFrames : List Frame → String → Option Value
  | [], _ => none
  | f :: rest, name =>
    match f.lookup name with
    | some v => some v
    | none => lookupFrames rest name

/-- `Interpreter::get_variable`. -/
def getVariable (st : InterpSt) (name : String) : Option Value :=
  match lookupFrames st.locals name with
  | some v => some v
  | none => st.globals.lookup name

/-- `Interpreter::set_variable`: the innermost frame if one exists,
otherwise the globals. -/
def setVariable (st : InterpSt) (name : String) (v : Value) : InterpSt :=
  match st.locals with
  | [] => { st with globals := assocSet st.globals name v }
  | f :: rest => { st with locals := assocSet f name v :: rest }

/-- Outcome of evaluating an expression (or a list of them): the result
and updated state, an `Err` with the state at the point of failure, or
a Rust panic. -/
inductive Res (α : Type) where
  | ok (a : α) (st : InterpSt)
  | err (msg : String) (st : InterpSt)
  | panic (msg : String) (st : InterpSt)

/-- `idx as usize` on an `i64`: two's-complement reinterpretation, i.e.
reduction modulo `2 ^ 64` (total on `Int`; the source value is always
i64-representable). -/
def intToUsize (i : Int) : Nat := (i % 2 ^ 64).toNat

/-- Stateless three-way outcome used for the index operation. -/
inductive VRes where
  | ok (v : Value)
  | err (msg : String)
  | panic (msg : String)

/-- The `(obj_val, idx_val)` match of the `Expr::Index` arm of
`Interpreter::evaluate_expr`.  For strings the source guards with the
BYTE length (`s.len()`) but then takes `chars().nth(idx).unwrap()`,
which panics when `idx` is a valid byte offset beyond the last char. -/
def indexValue : Value → Value → VRes
  | .Array arr, .Number idx =>
    match arr.get? (intToUsize idx) with
    | some v => .ok v
    | none => .err "Index out of bounds"
  | .String s, .Number idx =>
    let i := intToUsize idx
    if i < s.utf8ByteSize then
      match s.data.get? i with
      | some c => .ok (.String (String.mk [c]))
      | none => .panic "called Option::unwrap() on a None value"
    else .err "Index out of bounds"
  | _, _ => .err "Invalid index operation"

/-- `Interpreter::apply_binary_op`.  `Int.tdiv`/`Int.tmod` truncate toward
zero like Rust's `i64` division and remainder; overflow is out of scope
(see the header). -/
def applyBinaryOp (left : Value) (op : BinaryOp) (right : Value) : Except String Value :=
  match left, op, right with
  | .Number a, .Add, .Number b => .ok (.Number (a + b))
  | .Number a, .Subtract, .Number b => .ok (.Number (a - b))
  | .Number a, .Multiply, .Number b => .ok (.Number (a * b))
  | .Number a, .Divide, .Number b =>
    if b = 0 then .error "Division by zero" else .ok (.Number (Int.tdiv a b))
  | .Number a, .Modulo, .Number b =>
    if b = 0 then .error "Modulo by zero" else .ok (.Number (Int.tmod a b))
  | .String a, .Add, .String b => .ok (.String (a ++ b))
  | .Number a, .Equal, .Number b => .ok (.Boolean (a = b))
  | .Number a, .NotEqual, .Number b => .ok (.Boolean (a ≠ b))
  | .Number a, .Less, .Number b => .ok (.Boolean (a < b))
  | .Number a, .LessEqual, .Number b => .ok (.Boolean (a ≤ b))
  | .Number a, .Greater, .Number b => .ok (.Boolean (a > b))
  | .Number a, .GreaterEqual, .Number b => .ok (.Boolean (a ≥ b))
  | l, .And, r => .ok (.Boolean (l.isTruthy && r.isTruthy))
  | l, .Or, r => .ok (.Boolean (l.isTruthy || r.isTruthy))
  | l, op, r =>
    .error ("Invalid binary operation: " ++ valueDebug l ++ " " ++ binOpDebug op
      ++ " " ++ valueDebug r)

/-- Negation of the abstracted float text (the source negates the `f64`;
no claim observes float values). -/
def negFloatText (raw : String) : String := "-" ++ raw

/-- `Interpreter::apply_unary_op`. -/
def applyUnaryOp (op : UnaryOp) (val : Value) : Except String Value :=
  match op, val with
  | .Negate, .Number n => .ok (.Number (-n))
  | .Negate, .Float raw => .ok (.Float (negFloatText raw))
  | .Not, v => .ok (.Boolean (!v.isTruthy))
  | op, v =>
    .error ("Invalid unary operation: " ++ unOpDebug op ++ " " ++ valueDebug v)

/-- The `type` builtin's tag. -/
def typeName : Value → String
  | .Number _ => "number"
  | .Float _ => "float"
  | .String _ => "string"
  | .Boolean _ => "boolean"
  | .Array _ => "array"
  | .Object _ => "object"
  | .Void => "void"

mutual

/-- `Interpreter::evaluate_expr`. -/
def evalExpr : Expr → InterpSt → Res Value
  | .Number n, st => .ok (.Number n) st
  | .FloatLit raw, st => .ok (.Float raw) st
  | .StringLit s, st => .ok (.String s) st
  | .Boolean b, st => .ok (.Boolean b) st
  | .Array elements, st =>
    match evalExprList elements st with
    | .ok vs st2 => .ok (.Array vs) st2
    | .err m st2 => .err m st2
    | .panic m st2 => .panic m st2
  | .Object pairs, st =>
    match evalObjectPairs pairs [] st with
    | .ok map st2 => .ok (.Object map) st2
    | .err m st2 => .err m st2
    | .panic m st2 => .panic m st2
  | .Identifier name, st =>
    match getVariable st name with
    | some v => .ok v st
    | none => .err ("Undefined variable: " ++ name) st
  | .Binary l op r, st =>
    match evalExpr l st with
    | .ok lv st2 =>
      match evalExpr r st2 with
      | .ok rv st3 =>
        match applyBinaryOp lv op rv with
        | .ok v => .ok v st3
        | .error m => .err m st3
      | .err m st3 => .err m st3
      | .panic m st3 => .panic m st3
    | .err m st2 => .err m st2
    | .panic m st2 => .panic m st2
  | .Unary op e, st =>
    match evalExpr e st with
    | .ok v st2 =>
      match applyUnaryOp op v with
      | .ok v2 => .ok v2 st2
      | .error m => .err m st2
    | .err m st2 => .err m st2
    | .panic m st2 => .panic m st2
  | .Call f args, st =>
    -- `Interpreter::evaluate_call`, inlined here (it is a separate method
    -- in the source, called only from this arm)
    match f with
    | .Identifier name =>
      (match evalExprList args st with
      | .ok argVals st2 =>
        if name = "print" then
          let out := String.intercalate " " (argVals.map valueToString)
          .ok .Void { st2 with output := st2.output ++ [out ++ "\n"] }
        else if name = "len" then
          match argVals with
          | [] => .err "len() requires 1 argument" st2
          | v :: _ =>
            match v with
            | .String s => .ok (.Number (s.utf8ByteSize : Int)) st2
            | .Array arr => .ok (.Number (arr.length : Int)) st2
            | _ => .err "len() requires string or array" st2
        else if name = "type" then
          match argVals with
          | [] => .err "type() requires 1 argument" st2
          | v :: _ => .ok (.String (typeName v)) st2
        else .err ("Unknown function: " ++ name) st2
      | .err m st2 => .err m st2
      | .panic m st2 => .panic m st2)
    | .Member obj member =>
      (match obj with
      | .Identifier objName =>
        if objName = "writeutil" ∧ member = "text" then
          match args with
          | [a] =>
            (match evalExpr a st with
            | .ok v st2 => .ok .Void { st2 with output := st2.output ++ [valueToString v] }
            | .err m st2 => .err m st2
            | .panic m st2 => .panic m st2)
          | _ => .err "Unknown method call" st
        else .err "Unknown method call" st
      | _ => .err "Unknown method call" st)
    | _ => .err "Invalid function call" st
  | .Index obj idx, st =>
    match evalExpr obj st with
    | .ok ov st2 =>
      match evalExpr idx st2 with
      | .ok iv st3 =>
        match indexValue ov iv with
        | .ok v => .ok v st3
        | .err m => .err m st3
        | .panic m => .panic m st3
      | .err m st3 => .err m st3
      | .panic m st3 => .panic m st3
    | .err m st2 => .err m st2
    | .panic m st2 => .panic m st2
  | .Member obj m, st =>
    match evalExpr obj st with
    | .ok ov st2 =>
      match ov with
      | .Object map =>
        match map.lookup m with
        | some v => .ok v st2
        | none => .err ("Member not found: " ++ m) st2
      | _ => .err "Cannot access member on non-object" st2
    | .err msg st2 => .err msg st2
    | .panic msg st2 => .panic msg st2
termination_by structural e => e

/-- The argument/element evaluation loops (`for arg in args { push(eval?) }`). -/
def evalExprList : List Expr → InterpSt → Res (List Value)
  | [], st => .ok [] st
  | e :: rest, st =>
    match evalExpr e st with
    | .ok v st2 =>
      match evalExprList rest st2 with
      | .ok vs st3 => .ok (v :: vs) st3
      | .err m st3 => .err m st3
      | .panic m st3 => .panic m st3
    | .err m st2 => .err m st2
    | .panic m st2 => .panic m st2
termination_by structural l => l

/-- The `Expr::Object` loop: evaluate each pair in order and `insert`. -/
def evalObjectPairs : List (String × Expr) → Frame → InterpSt → Res Frame
  | [], acc, st => .ok acc st
  | (k, e) :: rest, acc, st =>
    match evalExpr e st with
    | .ok v st2 => evalObjectPairs rest (assocSet acc k v) st2
    | .err m st2 => .err m st2
    | .panic m st2 => .panic m st2
termination_by structural ps => ps

end

/-- Outcome of executing a statement: as `Res`, plus fuel exhaustion
(an embedding-only outcome, not a behavior of the source). -/
inductive ExecRes where
  | ok (v : Value) (st : InterpSt)
  | err (msg : String) (st : InterpSt)
  | panic (msg : String) (st : InterpSt)
  | fuelOut

/-- Lift an expression outcome into a statement outcome. -/
def liftRes : Res Value → ExecRes
  | .ok v st => .ok v st
  | .err m st => .err m st
  | .panic m st => .panic m st

mutual

/-- `Interpreter::execute_stmt`. -/
def execStmt : Nat → Stmt → InterpSt → ExecRes
  | 0, _, _ => .fuelOut
  | fuel + 1, stmt, st =>
    match stmt with
    | .Expression e => liftRes (evalExpr e st)
    | .Let name value =>
      match evalExpr value st with
      | .ok v st2 => .ok .Void (setVariable st2 name v)
      | .err m st2 => .err m st2
      | .panic m st2 => .panic m st2
    | .Assign target value =>
      match evalExpr value st with
      | .ok v st2 => .ok v (setVariable st2 target v)
      | .err m st2 => .err m st2
      | .panic m st2 => .panic m st2
    | .If condition thenBranch elseBranch =>
      match evalExpr condition st with
      | .ok cv st2 =>
        if cv.isTruthy then execBody fuel thenBranch .Void st2
        else
          match elseBranch with
          | some elseStmts => execBody fuel elseStmts .Void st2
          | none => .ok .Void st2
      | .err m st2 => .err m st2
      | .panic m st2 => .panic m st2
    | .While condition body => whileLoop fuel condition body .Void st
    | .For init condition increment body =>
      match init with
      | some i =>
        match execStmt fuel i st with
        | .ok _ st2 => forLoop fuel condition increment body .Void st2
        | other => other
      | none => forLoop fuel condition increment body .Void st
    | .FunctionDef name params _ =>
      let funcDef := "function:" ++ name ++ ":" ++ String.intercalate "," params
      .ok .Void (setVariable st name (.String funcDef))
    | .Return e =>
      match e with
      | some ex =>
        match evalExpr ex st with
        | .ok v st2 => .ok v { st2 with returnValue := some v }
        | .err m st2 => .err m st2
        | .panic m st2 => .panic m st2
      | none => .ok .Void { st with returnValue := some .Void }
    | .Break => .ok .Void { st with breakFlag := true }
    | .Continue => .ok .Void { st with continueFlag := true }
    | .Space _ body =>
      -- push a fresh frame; the source pops only after the body loop,
      -- so an `Err` propagating out (`?`) skips the pop
      match execBodyAll fuel body .Void { st with locals := [] :: st.locals } with
      | .ok v st2 => .ok v { st2 with locals := st2.locals.tail }
      | other => other
    | .Pub _ _ body => execBodyAll fuel body .Void st
    | .Subpub _ _ body => execBodyAll fuel body .Void st
    | .Block stmts => execBody fuel stmts .Void st

/-- The flag-checking statement loop (`for s in stmts { result =
execute_stmt(s)?; if return/break/continue { break } }`) used by the
`If` branches, the loop bodies, and `Block`; `acc` is the running
`result`. -/
def execBody : Nat → List Stmt → Value → InterpSt → ExecRes
  | 0, _, _, _ => .fuelOut
  | fuel + 1, stmts, acc, st =>
    match stmts with
    | [] => .ok acc st
    | s :: rest =>
      match execStmt fuel s st with
      | .ok v st2 =>
        if st2.returnValue.isSome || st2.breakFlag || st2.continueFlag then .ok v st2
        else execBody fuel rest v st2
      | other => other

/-- The unchecked statement loop used by `Space`, `Pub` and `Subpub`:
the source runs every statement with no flag check. -/
def execBodyAll : Nat → List Stmt → Value → InterpSt → ExecRes
  | 0, _, _, _ => .fuelOut
  | fuel + 1, stmts, acc, st =>
    match stmts with
    | [] => .ok acc st
    | s :: rest =>
      match execStmt fuel s st with
      | .ok v st2 => execBodyAll fuel rest v st2
      | other => other

/-- The `Stmt::While` loop. -/
def whileLoop : Nat → Expr → List Stmt → Value → InterpSt → ExecRes
  | 0, _, _, _, _ => .fuelOut
  | fuel + 1, condition, body, acc, st =>
    match evalExpr condition st with
    | .ok cv st1 =>
      if cv.isTruthy then
        match execBody fuel body acc st1 with
        | .ok r st2 =>
          if st2.breakFlag then .ok r { st2 with breakFlag := false }
          else if st2.continueFlag then
            whileLoop fuel condition body r { st2 with continueFlag := false }
          else if st2.returnValue.isSome then .ok r st2
          else whileLoop fuel condition body r st2
        | other => other
      else .ok acc st1
    | .err m st1 => .err m st1
    | .panic m st1 => .panic m st1

/-- The `Stmt::For` loop (condition already defaulted by the caller for
the `None` case: absent condition means always-true). -/
def forLoop : Nat → Option Expr → Option Expr → List Stmt → Value → InterpSt → ExecRes
  | 0, _, _, _, _, _ => .fuelOut
  | fuel + 1, condition, increment, body, acc, st =>
    match condition with
    | some cond =>
      match evalExpr cond st with
      | .ok cv st1 =>
        if !cv.isTruthy then .ok acc st1
        else forBodyStep fuel condition increment body acc st1
      | .err m st1 => .err m st1
      | .panic m st1 => .panic m st1
    | none => forBodyStep fuel condition increment body acc st

/-- One `For` iteration after the condition: body, flag handling,
increment, then back to `forLoop`. -/
def forBodyStep : Nat → Option Expr → Option Expr → List Stmt → Value → InterpSt → ExecRes
  | 0, _, _, _, _, _ => .fuelOut
  | fuel + 1, condition, increment, body, acc, st =>
    match execBody fuel body acc st with
    | .ok r st2 =>
      if st2.breakFlag then .ok r { st2 with breakFlag := false }
      else if st2.continueFlag then
        forIncrStep fuel condition increment body r { st2 with continueFlag := false }
      else if st2.returnValue.isSome then .ok r st2
      else forIncrStep fuel condition increment body r st2
    | other => other

/-- The increment expression (evaluated for effect) and the jump back to
the condition. -/
def forIncrStep : Nat → Option Expr → Option Expr → List Stmt → Value → InterpSt → ExecRes
  | 0, _, _, _, _, _ => .fuelOut
  | fuel + 1, condition, increment, body, acc, st =>
    match increment with
    | some inc =>
      match evalExpr inc st with
      | .ok _ st2 => forLoop fuel condition increment body acc st2
      | .err m st2 => .err m st2
      | .panic m st2 => .panic m st2
    | none => forLoop fuel condition increment body acc st

end

/-- The statement loop of `Interpreter::interpret`, with `last` the value
of the most recent statement: stops early when `return_value` is set,
clearing it (`take`) and returning it. -/
def interpretGo : Nat → List Stmt → Value → InterpSt → ExecRes
  | 0, _, _, _ => .fuelOut
  | fuel + 1, stmts, last, st =>
    match stmts with
    | [] => .ok last st
    | s :: rest =>
      match execStmt fuel s st with
      | .ok v st2 =>
        match st2.returnValue with
        | some rv => .ok rv { st2 with returnValue := none }
        | none => interpretGo fuel rest v st2
      | other => other

/-- `Interpreter::interpret` on a parsed program, from a given state. -/
def interpretProgram (fuel : Nat) (p : Program) (st : InterpSt) : ExecRes :=
  interpretGo fuel p.statements .Void st

/-! ## Emitter (src/compiler.rs)

`Compiler` owns the bytecode vector being emitted and the per-function
table; `compile_stmt`/`compile_expr` return `Result` in the source but
construct no error on any path, so they are embedded as total
functions on the compiler state. -/

/-- `BytecodeOp` from src/compiler.rs (`PushFloat` carries the literal
text, as everywhere). -/
inductive BytecodeOp where
  | PushNumber (n : Int)
  | PushFloat (raw : String)
  | PushString (s : String)
  | PushBool (b : Bool)
  | Pop
  | Add | Subtract | Multiply | Divide | Modulo
  | Equal | NotEqual | Less | LessEqual | Greater | GreaterEqual
  | And | Or | Not | Negate
  | GetLocal (name : String)
  | GetGlobal (name : String)
  | SetLocal (name : String)
  | SetGlobal (name : String)
  | JumpIfFalse (target : Nat)
  | Jump (target : Nat)
  | Call (name : String) (argc : Nat)
  | Return
  | Print | WriteUtil
  | ArrayCreate (k : Nat)
  | ObjectCreate (k : Nat)
  | Index
  | Member (name : String)
  deriving Repr, DecidableEq

/-- The `Compiler` state: the bytecode vector under construction and the
function table (`HashMap` as insertion-ordered association list). -/
structure CompilerSt where
  bytecode : List BytecodeOp
  functions : List (String × List BytecodeOp)

/-- `Compiler::new()`. -/
def initialCompilerSt : CompilerSt := { bytecode := [], functions := [] }

/-- `self.bytecode.push(op)`. -/
def emit (st : CompilerSt) (op : BytecodeOp) : CompilerSt :=
  { st with bytecode := st.bytecode ++ [op] }

/-- The back-patch `if let BytecodeOp::JumpIfFalse(ref mut addr) = &mut
self.bytecode[i] { *addr = target }`. -/
def patchJumpIfFalse (code : List BytecodeOp) (i target : Nat) : List BytecodeOp :=
  match code.get? i with
  | some (.JumpIfFalse _) => code.set i (.JumpIfFalse target)
  | _ => code

/-- The analogous back-patch for `Jump`. -/
def patchJump (code : List BytecodeOp) (i target : Nat) : List BytecodeOp :=
  match code.get? i with
  | some (.Jump _) => code.set i (.Jump target)
  | _ => code

/-- The `BinaryOp` table of `Compiler::compile_expr`. -/
def binOpBytecode : BinaryOp → BytecodeOp
  | .Add => .Add | .Subtract => .Subtract | .Multiply => .Multiply
  | .Divide => .Divide | .Modulo => .Modulo | .Equal => .Equal
  | .NotEqual => .NotEqual | .Less => .Less | .LessEqual => .LessEqual
  | .Greater => .Greater | .GreaterEqual => .GreaterEqual
  | .And => .And | .Or => .Or

/-- The `UnaryOp` table of `Compiler::compile_expr`. -/
def unOpBytecode : UnaryOp → BytecodeOp
  | .Negate => .Negate | .Not => .Not

mutual

/-- `Compiler::compile_expr`. -/
def compileExpr : Expr → CompilerSt → CompilerSt
  | .Number n, st => emit st (.PushNumber n)
  | .FloatLit raw, st => emit st (.PushFloat raw)
  | .StringLit s, st => emit st (.PushString s)
  | .Boolean b, st => emit st (.PushBool b)
  | .Identifier name, st => emit st (.GetGlobal name)
  | .Binary l op r, st => emit (compileExpr r (compileExpr l st)) (binOpBytecode op)
  | .Unary op e, st => emit (compileExpr e st) (unOpBytecode op)
  | .Call f args, st =>
    let st1 := compileExprList args st
    match f with
    | .Identifier name => emit st1 (.Call name args.length)
    | _ => st1    -- non-identifier callees are silently dropped
  | .Array elements, st =>
    emit (compileExprList elements st) (.ArrayCreate elements.length)
  | .Object pairs, st =>
    emit (compileObjectVals pairs st) (.ObjectCreate pairs.length)
  | .Index obj idx, st => emit (compileExpr idx (compileExpr obj st)) .Index
  | .Member obj m, st => emit (compileExpr obj st) (.Member m)

/-- The argument/element loops of `compile_expr`. -/
def compileExprList : List Expr → CompilerSt → CompilerSt
  | [], st => st
  | e :: rest, st => compileExprList rest (compileExpr e st)

/-- The `Expr::Object` loop of `compile_expr` (values only). -/
def compileObjectVals : List (String × Expr) → CompilerSt → CompilerSt
  | [], st => st
  | (_, e) :: rest, st => compileObjectVals rest (compileExpr e st)

end

mutual

/-- `Compiler::compile_stmt`. -/
def compileStmt : Stmt → CompilerSt → CompilerSt
  | .Expression e, st => emit (compileExpr e st) .Pop
  | .Let name value, st => emit (compileExpr value st) (.SetLocal name)
  | .Assign target value, st => emit (compileExpr value st) (.SetGlobal target)
  | .If condition thenBranch elseBranch, st =>
    let st1 := compileExpr condition st
    let jifIdx := st1.bytecode.length
    let st2 := emit st1 (.JumpIfFalse 0)
    let st3 := compileStmtList thenBranch st2
    let jIdx := st3.bytecode.length
    let st4 := emit st3 (.Jump 0)
    let falseTarget := st4.bytecode.length
    let st5 := { st4 with bytecode := patchJumpIfFalse st4.bytecode jifIdx falseTarget }
    let st6 :=
      match elseBranch with
      | some elseStmts => compileStmtList elseStmts st5
      | none => st5
    let endTarget := st6.bytecode.length
    { st6 with bytecode := patchJump st6.bytecode jIdx endTarget }
  | .While condition body, st =>
    let loopStart := st.bytecode.length
    let st1 := compileExpr condition st
    let jifIdx := st1.bytecode.length
    let st2 := emit st1 (.JumpIfFalse 0)
    let st3 := compileStmtList body st2
    let st4 := emit st3 (.Jump loopStart)
    let loopEnd := st4.bytecode.length
    { st4 with bytecode := patchJumpIfFalse st4.bytecode jifIdx loopEnd }
  | .For init condition increment body, st =>
    let st0 :=
      match init with
      | some i => compileStmt i st
      | none => st
    let loopStart := st0.bytecode.length
    let st1 :=
      match condition with
      | some cond => compileExpr cond st0
      | none => emit st0 (.PushBool true)
    let jifIdx := st1.bytecode.length
    let st2 := emit st1 (.JumpIfFalse 0)
    let st3 := compileStmtList body st2
    let st4 :=
      match increment with
      | some inc => emit (compileExpr inc st3) .Pop
      | none => st3
    let st5 := emit st4 (.Jump loopStart)
    let loopEnd := st5.bytecode.length
    { st5 with bytecode := patchJumpIfFalse st5.bytecode jifIdx loopEnd }
  | .FunctionDef name _ body, st =>
    -- the source swaps in an empty vector, compiles the body there,
    -- appends Return, stores it, and swaps the main sequence back
    let inner := compileStmtList body { bytecode := [], functions := st.functions }
    let func := inner.bytecode ++ [.Return]
    { bytecode := st.bytecode, functions := assocSet inner.functions name func }
  | .Return e, st =>
    let st1 :=
      match e with
      | some ex => compileExpr ex st
      | none => st
    emit st1 .Return
  | .Break, st => st
  | .Continue, st => st
  | .Space _ body, st => compileStmtList body st
  | .Pub _ _ body, st => compileStmtList body st
  | .Subpub _ _ body, st => compileStmtList body st
  | .Block stmts, st => compileStmtList stmts st

/-- The statement loops of `compile`/`compile_stmt`. -/
def compileStmtList : List Stmt → CompilerSt → CompilerSt
  | [], st => st
  | s :: rest, st => compileStmtList rest (compileStmt s st)

end

/-- `Compiler::compile` from a fresh compiler: the final state holds the
main sequence and the function table. -/
def compileProgram (p : Program) : CompilerSt :=
  compileStmtList p.statements initialCompilerSt

/-! ## Emitter invariants (for C8 and C9) -/

/-- The op is not a jump at all. -/
def opNoJump : BytecodeOp → Prop
  | .Jump _ => False
  | .JumpIfFalse _ => False
  | _ => True

/-- Jump targets of the op are at most `n`. -/
def opJumpBound (op : BytecodeOp) (n : Nat) : Prop :=
  match op with
  | .Jump t => t ≤ n
  | .JumpIfFalse t => t ≤ n
  | _ => True

/-- The op is not `GetLocal`. -/
def opNotGetLocal : BytecodeOp → Prop
  | .GetLocal _ => False
  | _ => True

/-- All ops of `code` have jump targets at most `n` and none is
`GetLocal`. -/
def codeOKUpTo (code : List BytecodeOp) (n : Nat) : Prop :=
  ∀ op ∈ code, opJumpBound op n ∧ opNotGetLocal op

/-- The self-contained form: targets bounded by the sequence's own
length (the claim's `[0, length]`), and no `GetLocal`. -/
def codeOK (code : List BytecodeOp) : Prop :=
  codeOKUpTo code code.length

/-- Every sequence of the function table is self-contained. -/
def funcsOK (fns : List (String × List BytecodeOp)) : Prop :=
  ∀ p ∈ fns, codeOK p.2

/-- Both sequences of a compiler state are self-contained. -/
def StOK (st : CompilerSt) : Prop :=
  codeOK st.bytecode ∧ funcsOK st.functions

theorem opJumpBound_mono {op : BytecodeOp} {n m : Nat} (h : opJumpBound op n)
    (hnm : n ≤ m) : opJumpBound op m := by
  cases op <;> simp only [opJumpBound] at h ⊢ <;> omega

theorem opNoJump_bound {op : BytecodeOp} (h : opNoJump op) (n : Nat) :
    opJumpBound op n := by
  cases op <;> simp only [opNoJump] at h <;> simp [opJumpBound]

theorem codeOKUpTo_mono {code : List BytecodeOp} {n m : Nat}
    (h : codeOKUpTo code n) (hnm : n ≤ m) : codeOKUpTo code m := by
  intro op hop
  exact ⟨opJumpBound_mono (h op hop).1 hnm, (h op hop).2⟩

theorem codeOKUpTo_append {c1 c2 : List BytecodeOp} {n : Nat}
    (h1 : codeOKUpTo c1 n) (h2 : codeOKUpTo c2 n) : codeOKUpTo (c1 ++ c2) n := by
  intro op hop
  rcases List.mem_append.mp hop with h | h
  · exact h1 op h
  · exact h2 op h

theorem patchJumpIfFalse_length (code : List BytecodeOp) (i target : Nat) :
    (patchJumpIfFalse code i target).length = code.length := by
  unfold patchJumpIfFalse
  split <;> simp

theorem patchJump_length (code : List BytecodeOp) (i target : Nat) :
    (patchJump code i target).length = code.length := by
  unfold patchJump
  split <;> simp

theorem patchJumpIfFalse_ok {code : List BytecodeOp} {n : Nat} (i target : Nat)
    (h : codeOKUpTo code n) (ht : target ≤ n) :
    codeOKUpTo (patchJumpIfFalse code i target) n := by
  unfold patchJumpIfFalse
  split
  · intro op hop
    rcases List.mem_or_eq_of_mem_set hop with hmem | rfl
    · exact h op hmem
    · exact ⟨ht, trivial⟩
  · exact h

theorem patchJump_ok {code : List BytecodeOp} {n : Nat} (i target : Nat)
    (h : codeOKUpTo code n) (ht : target ≤ n) :
    codeOKUpTo (patchJump code i target) n := by
  unfold patchJump
  split
  · intro op hop
    rcases List.mem_or_eq_of_mem_set hop with hmem | rfl
    · exact h op hmem
    · exact ⟨ht, trivial⟩
  · exact h

theorem assocSet_mem {β : Type} {m : List (String × β)} {k : String} {v : β}
    {p : String × β} (hp : p ∈ assocSet m k v) : p ∈ m ∨ p = (k, v) := by
  induction m with
  | nil => simp [assocSet] at hp; right; exact hp
  | cons q rest ih =>
    obtain ⟨k0, v0⟩ := q
    simp only [assocSet] at hp
    split at hp
    · rcases List.mem_cons.mp hp with rfl | hmem
      · right; rfl
      · left; exact List.mem_cons_of_mem _ hmem
    · rcases List.mem_cons.mp hp with rfl | hmem
      · left; exact List.mem_cons_self _ _
      · rcases ih hmem with h | h
        · left; exact List.mem_cons_of_mem _ h
        · right; exact h

/-- `compileExpr` (and its list forms) only appends ops that are neither
jumps nor `GetLocal`, and leaves the function table alone. -/
def ExtOK (st' st : CompilerSt) : Prop :=
  (∃ ex, st'.bytecode = st.bytecode ++ ex ∧
    ∀ op ∈ ex, opNoJump op ∧ opNotGetLocal op) ∧
  st'.functions = st.functions

theorem ExtOK_refl (st : CompilerSt) : ExtOK st st :=
  ⟨⟨[], by simp, by simp⟩, rfl⟩

theorem ExtOK_trans {st3 st2 st1 : CompilerSt} (h2 : ExtOK st3 st2)
    (h1 : ExtOK st2 st1) : ExtOK st3 st1 := by
  obtain ⟨⟨ex2, he2, ho2⟩, hf2⟩ := h2
  obtain ⟨⟨ex1, he1, ho1⟩, hf1⟩ := h1
  refine ⟨⟨ex1 ++ ex2, by rw [he2, he1, List.append_assoc], ?_⟩, hf2.trans hf1⟩
  intro op hop
  rcases List.mem_append.mp hop with h | h
  · exact ho1 op h
  · exact ho2 op h

theorem ExtOK_emit (st : CompilerSt) {op : BytecodeOp} (hop : opNoJump op)
    (hop2 : opNotGetLocal op) : ExtOK (emit st op) st :=
  ⟨⟨[op], rfl, by intro o ho; rw [List.mem_singleton] at ho; subst ho; exact ⟨hop, hop2⟩⟩, rfl⟩

theorem binOpBytecode_safe (op : BinaryOp) :
    opNoJump (binOpBytecode op) ∧ opNotGetLocal (binOpBytecode op) := by
  cases op <;> exact ⟨trivial, trivial⟩

theorem unOpBytecode_safe (op : UnaryOp) :
    opNoJump (unOpBytecode op) ∧ opNotGetLocal (unOpBytecode op) := by
  cases op <;> exact ⟨trivial, trivial⟩

theorem compileExpr_ext : ∀ (N : Nat),
    (∀ (e : Expr) (st : CompilerSt), sizeOf e ≤ N → ExtOK (compileExpr e st) st) ∧
    (∀ (l : List Expr) (st : CompilerSt), sizeOf l ≤ N →
      ExtOK (compileExprList l st) st) ∧
    (∀ (ps : List (String × Expr)) (st : CompilerSt), sizeOf ps ≤ N →
      ExtOK (compileObjectVals ps st) st) := by
  intro N
  induction N with
  | zero =>
    refine ⟨?_, ?_, ?_⟩
    · intro e st he; cases e <;> simp at he
    · intro l st hl; cases l <;> simp at hl
    · intro ps st hps; cases ps <;> simp at hps
  | succ N ih =>
    obtain ⟨ihE, ihL, ihP⟩ := ih
    refine ⟨?_, ?_, ?_⟩
    · intro e st he
      cases e with
      | Number n => exact ExtOK_emit st trivial trivial
      | FloatLit raw => exact ExtOK_emit st trivial trivial
      | StringLit s => exact ExtOK_emit st trivial trivial
      | Boolean b => exact ExtOK_emit st trivial trivial
      | Identifier name => exact ExtOK_emit st trivial trivial
      | Binary l op r =>
        simp only [compileExpr]
        simp only [Expr.Binary.sizeOf_spec] at he
        have h1 := ihE l st (by omega)
        have h2 := ihE r (compileExpr l st) (by omega)
        exact ExtOK_trans
          (ExtOK_emit _ (binOpBytecode_safe op).1 (binOpBytecode_safe op).2)
          (ExtOK_trans h2 h1)
      | Unary op e2 =>
        simp only [compileExpr]
        simp only [Expr.Unary.sizeOf_spec] at he
        have h1 := ihE e2 st (by omega)
        exact ExtOK_trans
          (ExtOK_emit _ (unOpBytecode_safe op).1 (unOpBytecode_safe op).2) h1
      | Call f args =>
        simp only [compileExpr]
        simp only [Expr.Call.sizeOf_spec] at he
        have h1 := ihL args st (by omega)
        cases f <;>
          first
          | exact ExtOK_trans (ExtOK_emit _ trivial trivial) h1
          | exact h1
      | Array elements =>
        simp only [compileExpr]
        simp only [Expr.Array.sizeOf_spec] at he
        exact ExtOK_trans (ExtOK_emit _ trivial trivial) (ihL elements st (by omega))
      | Object pairs =>
        simp only [compileExpr]
        simp only [Expr.Object.sizeOf_spec] at he
        exact ExtOK_trans (ExtOK_emit _ trivial trivial) (ihP pairs st (by omega))
      | Index obj idx =>
        simp only [compileExpr]
        simp only [Expr.Index.sizeOf_spec] at he
        have h1 := ihE obj st (by omega)
        have h2 := ihE idx (compileExpr obj st) (by omega)
        exact ExtOK_trans (ExtOK_emit _ trivial trivial) (ExtOK_trans h2 h1)
      | Member obj m =>
        simp only [compileExpr]
        simp only [Expr.Member.sizeOf_spec] at he
        exact ExtOK_trans (ExtOK_emit _ trivial trivial) (ihE obj st (by omega))
    · intro l st hl
      cases l with
      | nil => exact ExtOK_refl st
      | cons e rest =>
        simp only [compileExprList]
        simp only [List.cons.sizeOf_spec] at hl
        exact ExtOK_trans (ihL rest _ (by omega)) (ihE e st (by omega))
    · intro ps st hps
      cases ps with
      | nil => exact ExtOK_refl st
      | cons p rest =>
        obtain ⟨k, e⟩ := p
        simp only [compileObjectVals]
        simp only [List.cons.sizeOf_spec, Prod.mk.sizeOf_spec] at hps
        exact ExtOK_trans (ihP rest _ (by omega)) (ihE e st (by omega))

theorem StOK_of_ExtOK {st2 st : CompilerSt} (h : ExtOK st2 st) (hst : StOK st) :
    StOK st2 ∧ st.bytecode.length ≤ st2.bytecode.length := by
  obtain ⟨⟨ex, he, ho⟩, hf⟩ := h
  have hlen : st2.bytecode.length = st.bytecode.length + ex.length := by
    rw [he, List.length_append]
  refine ⟨⟨?_, hf ▸ hst.2⟩, by omega⟩
  rw [codeOK, he]
  refine codeOKUpTo_append (codeOKUpTo_mono hst.1 ?_) ?_
  · rw [← he]; omega
  · intro op hop
    exact ⟨opNoJump_bound (ho op hop).1 _, (ho op hop).2⟩

theorem emit_bytecode_length (st : CompilerSt) (op : BytecodeOp) :
    (emit st op).bytecode.length = st.bytecode.length + 1 := by
  simp [emit]

theorem StOK_emit_bounded {st : CompilerSt} {op : BytecodeOp} (hst : StOK st)
    (hb : opJumpBound op (st.bytecode.length + 1)) (hg : opNotGetLocal op) :
    StOK (emit st op) := by
  refine ⟨?_, hst.2⟩
  rw [codeOK, emit_bytecode_length]
  refine codeOKUpTo_append (codeOKUpTo_mono hst.1 (by omega)) ?_
  intro o ho
  rw [List.mem_singleton] at ho
  subst ho
  exact ⟨hb, hg⟩

theorem StOK_patchJumpIfFalse_end {st : CompilerSt} (i : Nat) (hst : StOK st) :
    StOK { st with bytecode := patchJumpIfFalse st.bytecode i st.bytecode.length } ∧
      ({ st with bytecode :=
          patchJumpIfFalse st.bytecode i st.bytecode.length } : CompilerSt).bytecode.length
        = st.bytecode.length := by
  have hlen := patchJumpIfFalse_length st.bytecode i st.bytecode.length
  exact ⟨⟨by rw [codeOK]; simp only [hlen]; exact patchJumpIfFalse_ok i _ hst.1 le_rfl,
    hst.2⟩, hlen⟩

theorem StOK_patchJump_end {st : CompilerSt} (i : Nat) (hst : StOK st) :
    StOK { st with bytecode := patchJump st.bytecode i st.bytecode.length } ∧
      ({ st with bytecode :=
          patchJump st.bytecode i st.bytecode.length } : CompilerSt).bytecode.length
        = st.bytecode.length := by
  have hlen := patchJump_length st.bytecode i st.bytecode.length
  exact ⟨⟨by rw [codeOK]; simp only [hlen]; exact patchJump_ok i _ hst.1 le_rfl,
    hst.2⟩, hlen⟩

/-- The combined emitter invariant (C8 and C9): compiling any statement
from a state whose sequences are self-contained and `GetLocal`-free
yields such a state again, never shrinking the main sequence. -/
theorem compileStmt_ok : ∀ (N : Nat),
    (∀ (s : Stmt) (st : CompilerSt), sizeOf s ≤ N → StOK st →
      StOK (compileStmt s st) ∧
        st.bytecode.length ≤ (compileStmt s st).bytecode.length) ∧
    (∀ (l : List Stmt) (st : CompilerSt), sizeOf l ≤ N → StOK st →
      StOK (compileStmtList l st) ∧
        st.bytecode.length ≤ (compileStmtList l st).bytecode.length) := by
  intro N
  induction N with
  | zero =>
    constructor
    · intro s st hs; cases s <;> simp at hs
    · intro l st hl; cases l <;> simp at hl
  | succ N ih =>
    obtain ⟨ihS, ihL⟩ := ih
    have exprStep : ∀ (e : Expr) (st : CompilerSt), StOK st →
        StOK (compileExpr e st) ∧
          st.bytecode.length ≤ (compileExpr e st).bytecode.length := by
      intro e st hst
      exact StOK_of_ExtOK ((compileExpr_ext (sizeOf e)).1 e st le_rfl) hst
    constructor
    · intro s st hs hst
      cases s with
      | Expression e =>
        simp only [compileStmt]
        have h1 := exprStep e st hst
        have h2 := @StOK_emit_bounded _ (.Pop) h1.1 trivial trivial
        refine ⟨h2, ?_⟩
        simp only [emit_bytecode_length]
        omega
      | Let name value =>
        simp only [compileStmt]
        have h1 := exprStep value st hst
        have h2 := @StOK_emit_bounded _ (.SetLocal name) h1.1 trivial trivial
        refine ⟨h2, ?_⟩
        simp only [emit_bytecode_length]
        omega
      | Assign target value =>
        simp only [compileStmt]
        have h1 := exprStep value st hst
        have h2 := @StOK_emit_bounded _ (.SetGlobal target) h1.1 trivial trivial
        refine ⟨h2, ?_⟩
        simp only [emit_bytecode_length]
        omega
      | If condition thenBranch elseBranch =>
        simp only [Stmt.If.sizeOf_spec] at hs
        cases elseBranch with
        | none =>
          simp only [compileStmt]
          have h1 := exprStep condition st hst
          have h2ok := @StOK_emit_bounded _ (.JumpIfFalse 0) h1.1
            (by simp only [opJumpBound]; omega) trivial
          have h3 := ihL thenBranch _ (by omega) h2ok
          have h4ok := @StOK_emit_bounded _ (.Jump 0) h3.1
            (by simp only [opJumpBound]; omega) trivial
          have h5 := StOK_patchJumpIfFalse_end
            (compileExpr condition st).bytecode.length h4ok
          have h6 := StOK_patchJump_end
            (compileStmtList thenBranch
              (emit (compileExpr condition st) (.JumpIfFalse 0))).bytecode.length h5.1
          refine ⟨h6.1, ?_⟩
          simp only [h6.2, h5.2, emit_bytecode_length] at *
          omega
        | some elseStmts =>
          simp only [Option.some.sizeOf_spec] at hs
          simp only [compileStmt]
          have h1 := exprStep condition st hst
          have h2ok := @StOK_emit_bounded _ (.JumpIfFalse 0) h1.1
            (by simp only [opJumpBound]; omega) trivial
          have h3 := ihL thenBranch _ (by omega) h2ok
          have h4ok := @StOK_emit_bounded _ (.Jump 0) h3.1
            (by simp only [opJumpBound]; omega) trivial
          have h5 := StOK_patchJumpIfFalse_end
            (compileExpr condition st).bytecode.length h4ok
          have h6 := ihL elseStmts _ (by omega) h5.1
          have h7 := StOK_patchJump_end
            (compileStmtList thenBranch
              (emit (compileExpr condition st) (.JumpIfFalse 0))).bytecode.length h6.1
          refine ⟨h7.1, ?_⟩
          simp only [h7.2, h5.2, emit_bytecode_length] at *
          omega
      | While condition body =>
        simp only [Stmt.While.sizeOf_spec] at hs
        simp only [compileStmt]
        have h1 := exprStep condition st hst
        have h2ok := @StOK_emit_bounded _ (.JumpIfFalse 0) h1.1
          (by simp only [opJumpBound]; omega) trivial
        have h3 := ihL body _ (by omega) h2ok
        have h4ok := @StOK_emit_bounded _ (.Jump st.bytecode.length) h3.1
          (by simp only [opJumpBound]; simp only [emit_bytecode_length] at *; omega)
          trivial
        have h5 := StOK_patchJumpIfFalse_end
          (compileExpr condition st).bytecode.length h4ok
        refine ⟨h5.1, ?_⟩
        simp only [h5.2, emit_bytecode_length] at *
        omega
      | For init condition increment body =>
        simp only [Stmt.For.sizeOf_spec] at hs
        cases init with
        | some i =>
          simp only [Option.some.sizeOf_spec] at hs
          cases condition with
          | some cond =>
            cases increment with
            | some inc =>
              simp only [compileStmt]
              have h0 := ihS i st (by omega) hst
              have h1 := exprStep cond _ h0.1
              have h2ok := @StOK_emit_bounded _ (.JumpIfFalse 0) h1.1 (by simp only [opJumpBound]; omega) trivial
              have h3 := ihL body _ (by omega) h2ok
              have h4a := exprStep inc _ h3.1
              have h4ok := @StOK_emit_bounded _ (.Pop) h4a.1 trivial trivial
              have h5ok := @StOK_emit_bounded _ (.Jump (compileStmt i st).bytecode.length) h4ok (by simp only [opJumpBound]; simp only [emit_bytecode_length] at *; omega) trivial
              have h6 := StOK_patchJumpIfFalse_end (compileExpr cond (compileStmt i st)).bytecode.length h5ok
              refine ⟨h6.1, ?_⟩
              simp only [h6.2, emit_bytecode_length] at *
              omega
            | none =>
              simp only [compileStmt]
              have h0 := ihS i st (by omega) hst
              have h1 := exprStep cond _ h0.1
              have h2ok := @StOK_emit_bounded _ (.JumpIfFalse 0) h1.1 (by simp only [opJumpBound]; omega) trivial
              have h3 := ihL body _ (by omega) h2ok
              have h5ok := @StOK_emit_bounded _ (.Jump (compileStmt i st).bytecode.length) h3.1 (by simp only [opJumpBound]; simp only [emit_bytecode_length] at *; omega) trivial
              have h6 := StOK_patchJumpIfFalse_end (compileExpr cond (compileStmt i st)).bytecode.length h5ok
              refine ⟨h6.1, ?_⟩
              simp only [h6.2, emit_bytecode_length] at *
              omega
          | none =>
            cases increment with
            | some inc =>
              simp only [compileStmt]
              have h0 := ihS i st (by omega) hst
              have h1ok := @StOK_emit_bounded _ (.PushBool true) h0.1 trivial trivial
              have h2ok := @StOK_emit_bounded _ (.JumpIfFalse 0) h1ok (by simp only [opJumpBound]; omega) trivial
              have h3 := ihL body _ (by omega) h2ok
              have h4a := exprStep inc _ h3.1
              have h4ok := @StOK_emit_bounded _ (.Pop) h4a.1 trivial trivial
              have h5ok := @StOK_emit_bounded _ (.Jump (compileStmt i st).bytecode.length) h4ok (by simp only [opJumpBound]; simp only [emit_bytecode_length] at *; omega) trivial
              have h6 := StOK_patchJumpIfFalse_end (emit (compileStmt i st) (.PushBool true)).bytecode.length h5ok
              refine ⟨h6.1, ?_⟩
              simp only [h6.2, emit_bytecode_length] at *
              omega
            | none =>
              simp only [compileStmt]
              have h0 := ihS i st (by omega) hst
              have h1ok := @StOK_emit_bounded _ (.PushBool true) h0.1 trivial trivial
              have h2ok := @StOK_emit_bounded _ (.JumpIfFalse 0) h1ok (by simp only [opJumpBound]; omega) trivial
              have h3 := ihL body _ (by omega) h2ok
              have h5ok := @StOK_emit_bounded _ (.Jump (compileStmt i st).bytecode.length) h3.1 (by simp only [opJumpBound]; simp only [emit_bytecode_length] at *; omega) trivial
              have h6 := StOK_patchJumpIfFalse_end (emit (compileStmt i st) (.PushBool true)).bytecode.length h5ok
              refine ⟨h6.1, ?_⟩
              simp only [h6.2, emit_bytecode_length] at *
              omega
        | none =>
          cases condition with
          | some cond =>
            cases increment with
            | some inc =>
              simp only [compileStmt]
              have h1 := exprStep cond _ hst
              have h2ok := @StOK_emit_bounded _ (.JumpIfFalse 0) h1.1 (by simp only [opJumpBound]; omega) trivial
              have h3 := ihL body _ (by omega) h2ok
              have h4a := exprStep inc _ h3.1
              have h4ok := @StOK_emit_bounded _ (.Pop) h4a.1 trivial trivial
              have h5ok := @StOK_emit_bounded _ (.Jump st.bytecode.length) h4ok (by simp only [opJumpBound]; simp only [emit_bytecode_length] at *; omega) trivial
              have h6 := StOK_patchJumpIfFalse_end (compileExpr cond st).bytecode.length h5ok
              refine ⟨h6.1, ?_⟩
              simp only [h6.2, emit_bytecode_length] at *
              omega
            | none =>
              simp only [compileStmt]
              have h1 := exprStep cond _ hst
              have h2ok := @StOK_emit_bounded _ (.JumpIfFalse 0) h1.1 (by simp only [opJumpBound]; omega) trivial
              have h3 := ihL body _ (by omega) h2ok
              have h5ok := @StOK_emit_bounded _ (.Jump st.bytecode.length) h3.1 (by simp only [opJumpBound]; simp only [emit_bytecode_length] at *; omega) trivial
              have h6 := StOK_patchJumpIfFalse_end (compileExpr cond st).bytecode.length h5ok
              refine ⟨h6.1, ?_⟩
              simp only [h6.2, emit_bytecode_length] at *
              omega
          | none =>
            cases increment with
            | some inc =>
              simp only [compileStmt]
              have h1ok := @StOK_emit_bounded _ (.PushBool true) hst trivial trivial
              have h2ok := @StOK_emit_bounded _ (.JumpIfFalse 0) h1ok (by simp only [opJumpBound]; omega) trivial
              have h3 := ihL body _ (by omega) h2ok
              have h4a := exprStep inc _ h3.1
              have h4ok := @StOK_emit_bounded _ (.Pop) h4a.1 trivial trivial
              have h5ok := @StOK_emit_bounded _ (.Jump st.bytecode.length) h4ok (by simp only [opJumpBound]; simp only [emit_bytecode_length] at *; omega) trivial
              have h6 := StOK_patchJumpIfFalse_end (emit st (.PushBool true)).bytecode.length h5ok
              refine ⟨h6.1, ?_⟩
              simp only [h6.2, emit_bytecode_length] at *
              omega
            | none =>
              simp only [compileStmt]
              have h1ok := @StOK_emit_bounded _ (.PushBool true) hst trivial trivial
              have h2ok := @StOK_emit_bounded _ (.JumpIfFalse 0) h1ok (by simp only [opJumpBound]; omega) trivial
              have h3 := ihL body _ (by omega) h2ok
              have h5ok := @StOK_emit_bounded _ (.Jump st.bytecode.length) h3.1 (by simp only [opJumpBound]; simp only [emit_bytecode_length] at *; omega) trivial
              have h6 := StOK_patchJumpIfFalse_end (emit st (.PushBool true)).bytecode.length h5ok
              refine ⟨h6.1, ?_⟩
              simp only [h6.2, emit_bytecode_length] at *
              omega
      | FunctionDef name params body =>
        simp only [Stmt.FunctionDef.sizeOf_spec] at hs
        simp only [compileStmt]
        have hinner := ihL body { bytecode := [], functions := st.functions }
          (by omega) ⟨by intro op hop; simp at hop, hst.2⟩
        refine ⟨⟨hst.1, ?_⟩, le_rfl⟩
        intro p hp
        rcases assocSet_mem hp with h | rfl
        · exact hinner.1.2 p h
        · rw [codeOK, List.length_append]
          refine codeOKUpTo_append (codeOKUpTo_mono hinner.1.1 (by simp)) ?_
          intro op hop
          rw [List.mem_singleton] at hop
          subst hop
          exact ⟨trivial, trivial⟩
      | Return e =>
        cases e with
        | some ex =>
          simp only [compileStmt]
          have h1 := exprStep ex st hst
          have h2 := @StOK_emit_bounded _ (.Return) h1.1 trivial trivial
          refine ⟨h2, ?_⟩
          simp only [emit_bytecode_length]
          omega
        | none =>
          simp only [compileStmt]
          have h2 := @StOK_emit_bounded _ (.Return) hst trivial trivial
          refine ⟨h2, ?_⟩
          simp only [emit_bytecode_length]
          omega
      | Break => exact ⟨hst, le_rfl⟩
      | Continue => exact ⟨hst, le_rfl⟩
      | Space name body =>
        simp only [Stmt.Space.sizeOf_spec] at hs
        simp only [compileStmt]
        exact ihL body st (by omega) hst
      | Pub name kind body =>
        simp only [Stmt.Pub.sizeOf_spec] at hs
        simp only [compileStmt]
        exact ihL body st (by omega) hst
      | Subpub name ct body =>
        simp only [Stmt.Subpub.sizeOf_spec] at hs
        simp only [compileStmt]
        exact ihL body st (by omega) hst
      | Block stmts =>
        simp only [Stmt.Block.sizeOf_spec] at hs
        simp only [compileStmt]
        exact ihL stmts st (by omega) hst
    · intro l st hl hst
      cases l with
      | nil => exact ⟨hst, le_rfl⟩
      | cons s rest =>
        simp only [List.cons.sizeOf_spec] at hl
        simp only [compileStmtList]
        have h1 := ihS s st (by omega) hst
        have h2 := ihL rest _ (by omega) h1.1
        exact ⟨h2.1, le_trans h1.2 h2.2⟩

/-! ## Claim C8 and C9 theorems -/

/-- C8: for every program the compiler translates (translation is total:
no path of `compile_stmt`/`compile_expr` constructs an error), every
`Jump` and `JumpIfFalse` target in the produced main sequence and in
every per-function sequence lies in `[0, length]` of its containing
sequence. -/
theorem C8_emitter_jump_targets_bounded (p : Program) :
    (∀ op ∈ (compileProgram p).bytecode,
      opJumpBound op (compileProgram p).bytecode.length) ∧
    (∀ q ∈ (compileProgram p).functions, ∀ op ∈ q.2, opJumpBound op q.2.length) := by
  have hinit : StOK initialCompilerSt := by
    constructor
    · intro op hop; simp [initialCompilerSt] at hop
    · intro q hq; simp [initialCompilerSt] at hq
  have h := (compileStmt_ok (sizeOf p.statements)).2 p.statements initialCompilerSt
    le_rfl hinit
  exact ⟨fun op hop => (h.1.1 op hop).1, fun q hq op hop => (h.1.2 q hq op hop).1⟩

/-- Witness for C8 on a concrete program: a `while` loop whose emitted
sequence is `[PushNumber 1, JumpIfFalse 3, Jump 0]`, and a function
definition whose table entry is `[Return, Return]`. -/
theorem C8_emitter_jump_targets_bounded_witness :
    opJumpBound (BytecodeOp.JumpIfFalse 3)
      (compileProgram (Program.mk [Stmt.While (Expr.Number 1) []])).bytecode.length ∧
    opJumpBound BytecodeOp.Return
      (("f", [BytecodeOp.Return, BytecodeOp.Return]) :
        String × List BytecodeOp).2.length :=
  ⟨(C8_emitter_jump_targets_bounded (Program.mk [Stmt.While (Expr.Number 1) []])).1
      (BytecodeOp.JumpIfFalse 3) (by decide),
   (C8_emitter_jump_targets_bounded
      (Program.mk [Stmt.FunctionDef "f" [] [Stmt.Return none]])).2
      ("f", [BytecodeOp.Return, BytecodeOp.Return]) (by decide)
      BytecodeOp.Return (by decide)⟩

/-- C9: the compiler translates every `Identifier` expression to
`GetGlobal`, never emits `GetLocal` anywhere (main sequence or function
table, so also inside `Space` and function bodies), while `Let` emits
`SetLocal`. -/
theorem C9_identifier_becomes_getglobal_never_getlocal :
    (∀ (name : String) (st : CompilerSt),
      compileExpr (Expr.Identifier name) st = emit st (.GetGlobal name)) ∧
    (∀ p : Program,
      (∀ op ∈ (compileProgram p).bytecode, opNotGetLocal op) ∧
      (∀ q ∈ (compileProgram p).functions, ∀ op ∈ q.2, opNotGetLocal op)) ∧
    (∀ (name : String) (v : Expr) (st : CompilerSt),
      compileStmt (Stmt.Let name v) st = emit (compileExpr v st) (.SetLocal name)) := by
  refine ⟨fun name st => by simp [compileExpr], fun p => ?_, fun name v st => by
    simp [compileStmt]⟩
  have hinit : StOK initialCompilerSt := by
    constructor
    · intro op hop; simp [initialCompilerSt] at hop
    · intro q hq; simp [initialCompilerSt] at hq
  have h := (compileStmt_ok (sizeOf p.statements)).2 p.statements initialCompilerSt
    le_rfl hinit
  exact ⟨fun op hop => (h.1.1 op hop).2, fun q hq op hop => (h.1.2 q hq op hop).2⟩

/-- Witness for C9 on a concrete program: a `Space` body reading `x`
after a `Let`; the emitted main sequence is
`[PushNumber 1, SetLocal "x", GetGlobal "x", Pop]`. -/
theorem C9_identifier_becomes_getglobal_never_getlocal_witness :
    compileExpr (Expr.Identifier "x") initialCompilerSt
        = emit initialCompilerSt (.GetGlobal "x") ∧
    opNotGetLocal (BytecodeOp.GetGlobal "x") ∧
    compileStmt (Stmt.Let "x" (Expr.Number 1)) initialCompilerSt
        = emit (compileExpr (Expr.Number 1) initialCompilerSt) (.SetLocal "x") :=
  ⟨C9_identifier_becomes_getglobal_never_getlocal.1 "x" initialCompilerSt,
   (C9_identifier_becomes_getglobal_never_getlocal.2.1
      (Program.mk [Stmt.Space "s"
        [Stmt.Let "x" (Expr.Number 1), Stmt.Expression (Expr.Identifier "x")]])).1
      (BytecodeOp.GetGlobal "x") (by decide),
   C9_identifier_becomes_getglobal_never_getlocal.2.2 "x" (Expr.Number 1)
      initialCompilerSt⟩


/-! ## Decidable equality for runtime values and states (proof
infrastructure only: lets concrete runs be checked by `decide`) -/

mutual

def valueBEq : Value → Value → Bool
  | .Number a, .Number b => a == b
  | .Float a, .Float b => a == b
  | .String a, .String b => a == b
  | .Boolean a, .Boolean b => a == b
  | .Array a, .Array b => valueListBEq a b
  | .Object a, .Object b => valueFrameBEq a b
  | .Void, .Void => true
  | _, _ => false

def valueListBEq : List Value → List Value → Bool
  | [], [] => true
  | a :: as, b :: bs => valueBEq a b && valueListBEq as bs
  | _, _ => false

def valueFrameBEq : List (String × Value) → List (String × Value) → Bool
  | [], [] => true
  | (k1, v1) :: as, (k2, v2) :: bs => k1 == k2 && valueBEq v1 v2 && valueFrameBEq as bs
  | _, _ => false

end

theorem valueBEq_iff_all : ∀ N : Nat,
    (∀ a b, sizeOf a ≤ N → (valueBEq a b = true ↔ a = b)) ∧
    (∀ as bs, sizeOf as ≤ N → (valueListBEq as bs = true ↔ as = bs)) ∧
    (∀ ps qs, sizeOf ps ≤ N → (valueFrameBEq ps qs = true ↔ ps = qs)) := by
  intro N
  induction N with
  | zero =>
    refine ⟨?_, ?_, ?_⟩
    · intro a b h; cases a <;> simp at h
    · intro as bs h; cases as <;> simp at h
    · intro ps qs h; cases ps <;> simp at h
  | succ N ih =>
    obtain ⟨ihV, ihL, ihF⟩ := ih
    refine ⟨?_, ?_, ?_⟩
    · intro a b ha
      cases a with
      | Number n =>
        cases b with
        | Number y =>
          simp [valueBEq]
        | Float y =>
          simp [valueBEq]
        | String y =>
          simp [valueBEq]
        | Boolean y =>
          simp [valueBEq]
        | Array y =>
          simp [valueBEq]
        | Object y =>
          simp [valueBEq]
        | Void =>
          simp [valueBEq]
      | Float f =>
        cases b with
        | Number y =>
          simp [valueBEq]
        | Float y =>
          simp [valueBEq]
        | String y =>
          simp [valueBEq]
        | Boolean y =>
          simp [valueBEq]
        | Array y =>
          simp [valueBEq]
        | Object y =>
          simp [valueBEq]
        | Void =>
          simp [valueBEq]
      | String s =>
        cases b with
        | Number y =>
          simp [valueBEq]
        | Float y =>
          simp [valueBEq]
        | String y =>
          simp [valueBEq]
        | Boolean y =>
          simp [valueBEq]
        | Array y =>
          simp [valueBEq]
        | Object y =>
          simp [valueBEq]
        | Void =>
          simp [valueBEq]
      | Boolean bb =>
        cases b with
        | Number y =>
          simp [valueBEq]
        | Float y =>
          simp [valueBEq]
        | String y =>
          simp [valueBEq]
        | Boolean y =>
          simp [valueBEq]
        | Array y =>
          simp [valueBEq]
        | Object y =>
          simp [valueBEq]
        | Void =>
          simp [valueBEq]
      | Array x =>
        cases b with
        | Number y =>
          simp [valueBEq]
        | Float y =>
          simp [valueBEq]
        | String y =>
          simp [valueBEq]
        | Boolean y =>
          simp [valueBEq]
        | Array y =>
          simp only [valueBEq, Value.Array.injEq]
          exact ihL x y (by simp only [Value.Array.sizeOf_spec] at ha; omega)
        | Object y =>
          simp [valueBEq]
        | Void =>
          simp [valueBEq]
      | Object x =>
        cases b with
        | Number y =>
          simp [valueBEq]
        | Float y =>
          simp [valueBEq]
        | String y =>
          simp [valueBEq]
        | Boolean y =>
          simp [valueBEq]
        | Array y =>
          simp [valueBEq]
        | Object y =>
          simp only [valueBEq, Value.Object.injEq]
          exact ihF x y (by simp only [Value.Object.sizeOf_spec] at ha; omega)
        | Void =>
          simp [valueBEq]
      | Void =>
        cases b with
        | Number y =>
          simp [valueBEq]
        | Float y =>
          simp [valueBEq]
        | String y =>
          simp [valueBEq]
        | Boolean y =>
          simp [valueBEq]
        | Array y =>
          simp [valueBEq]
        | Object y =>
          simp [valueBEq]
        | Void =>
          simp [valueBEq]
    · intro as bs ha
      cases as with
      | nil => cases bs <;> simp [valueListBEq]
      | cons a as2 =>
        cases bs with
        | nil => simp [valueListBEq]
        | cons b bs2 =>
          simp only [valueListBEq, Bool.and_eq_true, List.cons.injEq]
          simp only [List.cons.sizeOf_spec] at ha
          rw [ihV a b (by omega), ihL as2 bs2 (by omega)]
    · intro ps qs ha
      cases ps with
      | nil => cases qs <;> simp [valueFrameBEq]
      | cons p ps2 =>
        obtain ⟨k1, v1⟩ := p
        cases qs with
        | nil => simp [valueFrameBEq]
        | cons q qs2 =>
          obtain ⟨k2, v2⟩ := q
          simp only [valueFrameBEq, Bool.and_eq_true, List.cons.injEq,
            Prod.mk.injEq, beq_iff_eq]
          simp only [List.cons.sizeOf_spec, Prod.mk.sizeOf_spec] at ha
          rw [ihV v1 v2 (by omega), ihF ps2 qs2 (by omega)]

instance : DecidableEq Value := fun a b =>
  decidable_of_iff _ ((valueBEq_iff_all (sizeOf a)).1 a b le_rfl)

deriving instance DecidableEq for InterpSt
deriving instance DecidableEq for ExecRes
deriving instance DecidableEq for Res
deriving instance DecidableEq for VRes

/-! ## Claim C4, C10 theorems (indexing) -/

/-- C4 (failing input): the spec promises `"αβ"[2]` can only return a
character or fail "Index out of bounds", but the source guards the char
offset against the BYTE length (4 here) and then `unwrap`s
`chars().nth(2)`, which is `None`: evaluation panics. -/
theorem C4_string_index_panics :
    evalExpr (Expr.Index (Expr.StringLit "αβ") (Expr.Number 2)) initialInterpSt =
      .panic "called Option::unwrap() on a None value" initialInterpSt := by
  decide

/-- A negative i64 reinterpreted as `usize` is at least `2 ^ 63`. -/
theorem intToUsize_neg_ge (i : Int) (h1 : -(2 ^ 63) ≤ i) (h2 : i < 0) :
    2 ^ 63 ≤ intToUsize i := by
  simp only [intToUsize]
  have h64 : (2 : Int) ^ 64 = 18446744073709551616 := by norm_num
  have h63 : (2 : Nat) ^ 63 = 9223372036854775808 := by norm_num
  rw [h64, h63]
  rw [show -(2 ^ 63 : Int) = -9223372036854775808 by norm_num] at h1
  omega

/-- C10: for every Array or String value, a negative i64 index always
fails with "Index out of bounds": the `as usize` cast lands at or above
`2 ^ 63`, past any length below `2 ^ 63`. -/
theorem C10_negative_index_out_of_bounds (i : Int) (h1 : -(2 ^ 63) ≤ i)
    (h2 : i < 0) :
    (∀ arr : List Value, arr.length < 2 ^ 63 →
      indexValue (.Array arr) (.Number i) = .err "Index out of bounds") ∧
    (∀ s : String, s.utf8ByteSize < 2 ^ 63 →
      indexValue (.String s) (.Number i) = .err "Index out of bounds") := by
  have hge := intToUsize_neg_ge i h1 h2
  constructor
  · intro arr harr
    simp only [indexValue]
    rw [List.get?_eq_none.mpr (by omega)]
  · intro s hs
    simp only [indexValue]
    rw [if_neg (by omega)]

/-- Witness for C10 at `i = -1` on `[Void]` and on `"a"`. -/
theorem C10_negative_index_out_of_bounds_witness :
    indexValue (.Array [Value.Void]) (.Number (-1)) = .err "Index out of bounds" ∧
    indexValue (.String "a") (.Number (-1)) = .err "Index out of bounds" :=
  ⟨(C10_negative_index_out_of_bounds (-1) (by norm_num) (by norm_num)).1
      [Value.Void] (by norm_num),
   (C10_negative_index_out_of_bounds (-1) (by norm_num) (by norm_num)).2
      "a" (by decide)⟩

/-! ## Claim C6 theorems (`len` builtin) -/

/-- C6 (counterexample): a two-argument `len` call does NOT fail with
"len() requires 1 argument"; it returns the length of the first
argument. -/
theorem C6_len_two_args_succeeds :
    evalExpr (Expr.Call (Expr.Identifier "len")
        [Expr.StringLit "ab", Expr.StringLit "cd"]) initialInterpSt =
      .ok (.Number 2) initialInterpSt := by
  decide

theorem evalExprList_stringLits (extra : List String) (st : InterpSt) :
    evalExprList (extra.map Expr.StringLit) st = .ok (extra.map Value.String) st := by
  induction extra with
  | nil => simp [evalExprList]
  | cons s rest ih => simp [evalExprList, evalExpr, ih]

theorem evalExprList_numberLits (xs : List Int) (st : InterpSt) :
    evalExprList (xs.map Expr.Number) st = .ok (xs.map Value.Number) st := by
  induction xs with
  | nil => simp [evalExprList]
  | cons x rest ih => simp [evalExprList, evalExpr, ih]

/-- C6 (amended): `len` fails with "len() requires 1 argument" exactly
when called with ZERO arguments; with one or more arguments it uses the
first and ignores the rest — byte length of a string, element count of
an array, and "len() requires string or array" otherwise. -/
theorem C6_len_arity_amended :
    (∀ st : InterpSt,
      evalExpr (Expr.Call (Expr.Identifier "len") []) st =
        .err "len() requires 1 argument" st) ∧
    (∀ (st : InterpSt) (s : String) (extra : List String),
      evalExpr (Expr.Call (Expr.Identifier "len")
          (Expr.StringLit s :: extra.map Expr.StringLit)) st =
        .ok (.Number (s.utf8ByteSize : Int)) st) ∧
    (∀ (st : InterpSt) (xs : List Int) (extra : List String),
      evalExpr (Expr.Call (Expr.Identifier "len")
          (Expr.Array (xs.map Expr.Number) :: extra.map Expr.StringLit)) st =
        .ok (.Number (xs.length : Int)) st) ∧
    (∀ (st : InterpSt) (b : Bool) (extra : List String),
      evalExpr (Expr.Call (Expr.Identifier "len")
          (Expr.Boolean b :: extra.map Expr.StringLit)) st =
        .err "len() requires string or array" st) := by
  refine ⟨fun st => ?_, fun st s extra => ?_, fun st xs extra => ?_,
    fun st b extra => ?_⟩
  · simp [evalExpr, evalExprList]
  · simp [evalExpr, evalExprList, evalExprList_stringLits]
  · simp [evalExpr, evalExprList, evalExprList_stringLits,
      evalExprList_numberLits]
  · simp [evalExpr, evalExprList, evalExprList_stringLits]

/-! ## Claim C3 theorems (control-flow flags and statement sequences) -/

/-- C3 (counterexample): inside a `Space` body the remaining statements
run even after `break` set the flag: the `print(1)` after `break` still
prints.  (The same loop, without a flag check, runs `Pub` and `Subpub`
bodies.) -/
theorem C3_space_body_ignores_flags :
    execStmt 10 (Stmt.Space "s" [Stmt.Break,
        Stmt.Expression (Expr.Call (Expr.Identifier "print") [Expr.Number 1])])
      initialInterpSt =
    .ok .Void
      { globals := [("print", .String "builtin:print"), ("len", .String "builtin:len"),
          ("type", .String "builtin:type")]
        locals := []
        returnValue := none
        breakFlag := true
        continueFlag := false
        output := ["1\n"] } := by
  decide

/-- C3 (amended): in the flag-checking sequences (`If` branches, `While`
and `For` bodies, `Block`), a statement completing with `break_flag`,
`continue_flag` or `return_value` set aborts the rest of the sequence —
the loop's result is exactly that statement's result; the `Space`,
`Pub` and `Subpub` bodies use the unchecked loop, which always
continues with the remaining statements. -/
theorem C3_flags_abort_checked_sequences_only (fuel : Nat) (s : Stmt)
    (rest : List Stmt) (acc v : Value) (st st' : InterpSt)
    (h : execStmt fuel s st = .ok v st')
    (hflag : (st'.returnValue.isSome || st'.breakFlag || st'.continueFlag) = true) :
    execBody (fuel + 1) (s :: rest) acc st = .ok v st' ∧
    execBodyAll (fuel + 1) (s :: rest) acc st = execBodyAll fuel rest v st' := by
  constructor
  · simp only [execBody]
    rw [h]
    simp [hflag]
  · simp only [execBodyAll]
    rw [h]

/-- Witness for C3's amended statement at `break;` followed by
`print(1)`. -/
theorem C3_flags_abort_checked_sequences_only_witness :
    execBody 10
        [Stmt.Break, Stmt.Expression (Expr.Call (Expr.Identifier "print") [Expr.Number 1])]
        .Void initialInterpSt =
      .ok .Void { initialInterpSt with breakFlag := true } ∧
    execBodyAll 10
        [Stmt.Break, Stmt.Expression (Expr.Call (Expr.Identifier "print") [Expr.Number 1])]
        .Void initialInterpSt =
      execBodyAll 9
        [Stmt.Expression (Expr.Call (Expr.Identifier "print") [Expr.Number 1])]
        .Void { initialInterpSt with breakFlag := true } :=
  C3_flags_abort_checked_sequences_only 9 Stmt.Break
    [Stmt.Expression (Expr.Call (Expr.Identifier "print") [Expr.Number 1])]
    .Void .Void initialInterpSt { initialInterpSt with breakFlag := true }
    (by decide) (by rfl)

/-! ## Claim C7 theorem (tokenizer totality) -/

/-- C7: for every input string, `tokenize` terminates (it is a total
function here, with fuel `length + 1` proven sufficient), the last
token is `Eof`, and `Eof` occurs nowhere before the last position. -/
theorem C7_tokenize_terminates_last_eof (s : String) :
    (tokenizeStr s).getLast? = some Token.Eof ∧
    ∀ t ∈ (tokenizeStr s).dropLast, t ≠ Token.Eof :=
  tokenizeGo_spec (s.data.length + 1) s.data (by omega)

/-- Witness for C7 on `"1;"`, whose tokens are
`[Number 1, Semicolon, Eof]`. -/
theorem C7_tokenize_terminates_last_eof_witness :
    (tokenizeStr "1;").getLast? = some Token.Eof ∧
      Token.Number 1 ≠ Token.Eof :=
  ⟨(C7_tokenize_terminates_last_eof "1;").1,
   (C7_tokenize_terminates_last_eof "1;").2 (Token.Number 1) (by decide)⟩

/-! ## Claim C1 theorem (the while/print scenario) -/

/-- C1 (failing input): the spec's scenario
`let i = 0; while (i < 3) { print(i); i = i + 1; } print(i);` cannot
print anything: the parser has no production for `IDENT = EXPR ;`, so
it rejects the program with "Expected Semicolon, got Equal" and the
evaluator is never reached.  The second conjunct runs the intended
program — with the `Assign` node that `Stmt` and both back ends
support but the parser never produces — and gets exactly the printout
`0`, `1`, `2`, `3` the spec describes, evidencing that the parser
omission is the slip. -/
theorem C1_while_print_scenario_rejected_at_parse :
    parseSource 200 "let i = 0; while (i < 3) \x7b print(i); i = i + 1; \x7d print(i);" =
      .err "Expected Semicolon, got Equal" ∧
    interpretProgram 100 (Program.mk
      [ Stmt.Let "i" (Expr.Number 0)
      , Stmt.While (Expr.Binary (Expr.Identifier "i") .Less (Expr.Number 3))
          [ Stmt.Expression (Expr.Call (Expr.Identifier "print") [Expr.Identifier "i"])
          , Stmt.Assign "i" (Expr.Binary (Expr.Identifier "i") .Add (Expr.Number 1)) ]
      , Stmt.Expression (Expr.Call (Expr.Identifier "print") [Expr.Identifier "i"]) ])
      initialInterpSt =
    .ok .Void
      { globals := [("print", .String "builtin:print"), ("len", .String "builtin:len"),
          ("type", .String "builtin:type"), ("i", .Number 3)]
        locals := []
        returnValue := none
        breakFlag := false
        continueFlag := false
        output := ["0\n", "1\n", "2\n", "3\n"] } :=
  ⟨by rfl, by decide⟩

/-! ## Claim C5: scope-stack discipline of `Space` -/

/-- The locals stack of the state inside any evaluation outcome. -/
def resLocals {α : Type} : Res α → List Frame
  | .ok _ st => st.locals
  | .err _ st => st.locals
  | .panic _ st => st.locals

/-- Expression evaluation never touches the scope stack (it can only
append to the output): the state in the outcome has the same `locals`,
whether the evaluation succeeded, failed or panicked. -/
theorem evalExpr_locals : ∀ N : Nat,
    (∀ (e : Expr) (st : InterpSt), sizeOf e ≤ N →
      resLocals (evalExpr e st) = st.locals) ∧
    (∀ (l : List Expr) (st : InterpSt), sizeOf l ≤ N →
      resLocals (evalExprList l st) = st.locals) ∧
    (∀ (ps : List (String × Expr)) (acc : Frame) (st : InterpSt), sizeOf ps ≤ N →
      resLocals (evalObjectPairs ps acc st) = st.locals) := by
  intro N
  induction N with
  | zero =>
    refine ⟨?_, ?_, ?_⟩
    · intro e st h; cases e <;> simp at h
    · intro l st h; cases l <;> simp at h
    · intro ps acc st h; cases ps <;> simp at h
  | succ N ih =>
    obtain ⟨ihE, ihL, ihP⟩ := ih
    refine ⟨?_, ?_, ?_⟩
    · intro e st he
      cases e with
      | Number n => simp [evalExpr, resLocals]
      | FloatLit raw => simp [evalExpr, resLocals]
      | StringLit s => simp [evalExpr, resLocals]
      | Boolean b => simp [evalExpr, resLocals]
      | Identifier name =>
        simp only [evalExpr]
        cases hab : getVariable st name <;> simp [resLocals]
      | Array elements =>
        simp only [evalExpr, Expr.Array.sizeOf_spec] at he ⊢
        cases hl : evalExprList elements st with
        | ok vs st2 =>
          have h1 : st2.locals = st.locals := by
            have hh := ihL elements st (by omega); rw [hl] at hh; exact hh
          simp [resLocals, hl, h1]
        | err m st2 =>
          have h1 : st2.locals = st.locals := by
            have hh := ihL elements st (by omega); rw [hl] at hh; exact hh
          simp [resLocals, hl, h1]
        | panic m st2 =>
          have h1 : st2.locals = st.locals := by
            have hh := ihL elements st (by omega); rw [hl] at hh; exact hh
          simp [resLocals, hl, h1]
      | Object pairs =>
        simp only [evalExpr, Expr.Object.sizeOf_spec] at he ⊢
        cases hl : evalObjectPairs pairs [] st with
        | ok map st2 =>
          have h1 : st2.locals = st.locals := by
            have hh := ihP pairs [] st (by omega); rw [hl] at hh; exact hh
          simp [resLocals, hl, h1]
        | err m st2 =>
          have h1 : st2.locals = st.locals := by
            have hh := ihP pairs [] st (by omega); rw [hl] at hh; exact hh
          simp [resLocals, hl, h1]
        | panic m st2 =>
          have h1 : st2.locals = st.locals := by
            have hh := ihP pairs [] st (by omega); rw [hl] at hh; exact hh
          simp [resLocals, hl, h1]
      | Binary l op r =>
        simp only [evalExpr, Expr.Binary.sizeOf_spec] at he ⊢
        cases hl : evalExpr l st with
        | ok lv st2 =>
          have h1 : st2.locals = st.locals := by
            have hh := ihE l st (by omega); rw [hl] at hh; exact hh
          cases hr : evalExpr r st2 with
          | ok rv st3 =>
            have h2 : st3.locals = st2.locals := by
              have hh := ihE r st2 (by omega); rw [hr] at hh; exact hh
            cases hab : applyBinaryOp lv op rv <;> simp [resLocals, hl, hr, hab, h1, h2]
          | err m st3 =>
            have h2 : st3.locals = st2.locals := by
              have hh := ihE r st2 (by omega); rw [hr] at hh; exact hh
            simp [resLocals, hl, hr, h1, h2]
          | panic m st3 =>
            have h2 : st3.locals = st2.locals := by
              have hh := ihE r st2 (by omega); rw [hr] at hh; exact hh
            simp [resLocals, hl, hr, h1, h2]
        | err m st2 =>
          have h1 : st2.locals = st.locals := by
            have hh := ihE l st (by omega); rw [hl] at hh; exact hh
          simp [resLocals, hl, h1]
        | panic m st2 =>
          have h1 : st2.locals = st.locals := by
            have hh := ihE l st (by omega); rw [hl] at hh; exact hh
          simp [resLocals, hl, h1]
      | Unary op e2 =>
        simp only [evalExpr, Expr.Unary.sizeOf_spec] at he ⊢
        cases hl : evalExpr e2 st with
        | ok v st2 =>
          have h1 : st2.locals = st.locals := by
            have hh := ihE e2 st (by omega); rw [hl] at hh; exact hh
          cases hab : applyUnaryOp op v <;> simp [resLocals, hl, hab, h1]
        | err m st2 =>
          have h1 : st2.locals = st.locals := by
            have hh := ihE e2 st (by omega); rw [hl] at hh; exact hh
          simp [resLocals, hl, h1]
        | panic m st2 =>
          have h1 : st2.locals = st.locals := by
            have hh := ihE e2 st (by omega); rw [hl] at hh; exact hh
          simp [resLocals, hl, h1]
      | Index obj idx =>
        simp only [evalExpr, Expr.Index.sizeOf_spec] at he ⊢
        cases hl : evalExpr obj st with
        | ok ov st2 =>
          have h1 : st2.locals = st.locals := by
            have hh := ihE obj st (by omega); rw [hl] at hh; exact hh
          cases hr : evalExpr idx st2 with
          | ok iv st3 =>
            have h2 : st3.locals = st2.locals := by
              have hh := ihE idx st2 (by omega); rw [hr] at hh; exact hh
            cases hab : indexValue ov iv <;> simp [resLocals, hl, hr, hab, h1, h2]
          | err m st3 =>
            have h2 : st3.locals = st2.locals := by
              have hh := ihE idx st2 (by omega); rw [hr] at hh; exact hh
            simp [resLocals, hl, hr, h1, h2]
          | panic m st3 =>
            have h2 : st3.locals = st2.locals := by
              have hh := ihE idx st2 (by omega); rw [hr] at hh; exact hh
            simp [resLocals, hl, hr, h1, h2]
        | err m st2 =>
          have h1 : st2.locals = st.locals := by
            have hh := ihE obj st (by omega); rw [hl] at hh; exact hh
          simp [resLocals, hl, h1]
        | panic m st2 =>
          have h1 : st2.locals = st.locals := by
            have hh := ihE obj st (by omega); rw [hl] at hh; exact hh
          simp [resLocals, hl, h1]
      | Member obj m =>
        simp only [evalExpr, Expr.Member.sizeOf_spec] at he ⊢
        cases hl : evalExpr obj st with
        | ok ov st2 =>
          have h1 : st2.locals = st.locals := by
            have hh := ihE obj st (by omega); rw [hl] at hh; exact hh
          cases ov with
          | Object map => cases hab : map.lookup m <;> simp [resLocals, hl, hab, h1]
          | Number n => simp [resLocals, h1]
          | Float raw => simp [resLocals, h1]
          | String s => simp [resLocals, h1]
          | Boolean b => simp [resLocals, h1]
          | Array a => simp [resLocals, h1]
          | Void => simp [resLocals, h1]
        | err msg st2 =>
          have h1 : st2.locals = st.locals := by
            have hh := ihE obj st (by omega); rw [hl] at hh; exact hh
          simp [resLocals, hl, h1]
        | panic msg st2 =>
          have h1 : st2.locals = st.locals := by
            have hh := ihE obj st (by omega); rw [hl] at hh; exact hh
          simp [resLocals, hl, h1]
      | Call f args =>
        simp only [Expr.Call.sizeOf_spec] at he
        cases f with
        | Identifier name =>
          simp only [evalExpr]
          cases hl : evalExprList args st with
          | ok argVals st2 =>
            have h1 : st2.locals = st.locals := by
              have hh := ihL args st (by omega); rw [hl] at hh; exact hh
            split_ifs with hp hlen hty
            · simp [resLocals, h1]
            · cases argVals with
              | nil => simp [resLocals, h1]
              | cons v rest => cases v <;> simp [resLocals, h1]
            · cases argVals with
              | nil => simp [resLocals, h1]
              | cons v rest => simp [resLocals, h1]
            · simp [resLocals, h1]
          | err m st2 =>
            have h1 : st2.locals = st.locals := by
              have hh := ihL args st (by omega); rw [hl] at hh; exact hh
            simp [resLocals, hl, h1]
          | panic m st2 =>
            have h1 : st2.locals = st.locals := by
              have hh := ihL args st (by omega); rw [hl] at hh; exact hh
            simp [resLocals, hl, h1]
        | Member obj member =>
          cases obj with
          | Identifier objName =>
            rw [evalExpr.eq_def]
            dsimp only
            split_ifs with hw
            · cases args with
              | nil => simp [evalExpr, resLocals]
              | cons a rest =>
                cases rest with
                | nil =>
                  cases hl : evalExpr a st with
                  | ok v st2 =>
                    have h1 : st2.locals = st.locals := by
                      have hh := ihE a st (by
                        simp only [List.cons.sizeOf_spec, List.nil.sizeOf_spec] at he
                        omega)
                      rw [hl] at hh; exact hh
                    simp [resLocals, hl, h1]
                  | err m st2 =>
                    have h1 : st2.locals = st.locals := by
                      have hh := ihE a st (by
                        simp only [List.cons.sizeOf_spec, List.nil.sizeOf_spec] at he
                        omega)
                      rw [hl] at hh; exact hh
                    simp [resLocals, hl, h1]
                  | panic m st2 =>
                    have h1 : st2.locals = st.locals := by
                      have hh := ihE a st (by
                        simp only [List.cons.sizeOf_spec, List.nil.sizeOf_spec] at he
                        omega)
                      rw [hl] at hh; exact hh
                    simp [resLocals, hl, h1]
                | cons b rest2 => simp [evalExpr, resLocals]
            · simp [resLocals]
          | Number n => simp [evalExpr, resLocals]
          | FloatLit raw => simp [evalExpr, resLocals]
          | StringLit s => simp [evalExpr, resLocals]
          | Boolean b => simp [evalExpr, resLocals]
          | Array elements => simp [evalExpr, resLocals]
          | Object pairs => simp [evalExpr, resLocals]
          | Binary l op r => simp [evalExpr, resLocals]
          | Unary op e2 => simp [evalExpr, resLocals]
          | Call f2 args2 => simp [evalExpr, resLocals]
          | Index o i => simp [evalExpr, resLocals]
          | Member o m2 => simp [evalExpr, resLocals]
        | Number n => simp [evalExpr, resLocals]
        | FloatLit raw => simp [evalExpr, resLocals]
        | StringLit s => simp [evalExpr, resLocals]
        | Boolean b => simp [evalExpr, resLocals]
        | Array elements => simp [evalExpr, resLocals]
        | Object pairs => simp [evalExpr, resLocals]
        | Binary l op r => simp [evalExpr, resLocals]
        | Unary op e2 => simp [evalExpr, resLocals]
        | Call f2 args2 => simp [evalExpr, resLocals]
        | Index o i => simp [evalExpr, resLocals]
    · intro l st hl
      cases l with
      | nil => simp [evalExprList, resLocals]
      | cons e rest =>
        simp only [evalExprList, List.cons.sizeOf_spec] at hl ⊢
        cases he : evalExpr e st with
        | ok v st2 =>
          have h1 : st2.locals = st.locals := by
            have hh := ihE e st (by omega); rw [he] at hh; exact hh
          cases hr : evalExprList rest st2 with
          | ok vs st3 =>
            have h2 : st3.locals = st2.locals := by
              have hh := ihL rest st2 (by omega); rw [hr] at hh; exact hh
            simp [resLocals, he, hr, h1, h2]
          | err m st3 =>
            have h2 : st3.locals = st2.locals := by
              have hh := ihL rest st2 (by omega); rw [hr] at hh; exact hh
            simp [resLocals, he, hr, h1, h2]
          | panic m st3 =>
            have h2 : st3.locals = st2.locals := by
              have hh := ihL rest st2 (by omega); rw [hr] at hh; exact hh
            simp [resLocals, he, hr, h1, h2]
        | err m st2 =>
          have h1 : st2.locals = st.locals := by
            have hh := ihE e st (by omega); rw [he] at hh; exact hh
          simp [resLocals, he, h1]
        | panic m st2 =>
          have h1 : st2.locals = st.locals := by
            have hh := ihE e st (by omega); rw [he] at hh; exact hh
          simp [resLocals, he, h1]
    · intro ps acc st hps
      cases ps with
      | nil => simp [evalObjectPairs, resLocals]
      | cons p rest =>
        obtain ⟨k, e⟩ := p
        simp only [evalObjectPairs, List.cons.sizeOf_spec, Prod.mk.sizeOf_spec] at hps ⊢
        cases he : evalExpr e st with
        | ok v st2 =>
          have h1 : st2.locals = st.locals := by
            have hh := ihE e st (by omega); rw [he] at hh; exact hh
          have h2 : resLocals (evalObjectPairs rest (assocSet acc k v) st2) = st2.locals :=
            ihP rest (assocSet acc k v) st2 (by omega)
          show resLocals (evalObjectPairs rest (assocSet acc k v) st2) = st.locals
          rw [h2, h1]
        | err m st2 =>
          have h1 : st2.locals = st.locals := by
            have hh := ihE e st (by omega); rw [he] at hh; exact hh
          simp [resLocals, he, h1]
        | panic m st2 =>
          have h1 : st2.locals = st.locals := by
            have hh := ihE e st (by omega); rw [he] at hh; exact hh
          simp [resLocals, he, h1]

/-- Specialisation of `evalExpr_locals` to a successful evaluation. -/
theorem evalExpr_ok_locals {e : Expr} {st : InterpSt} {v : Value} {st2 : InterpSt}
    (h : evalExpr e st = .ok v st2) : st2.locals = st.locals := by
  have hh := (evalExpr_locals (sizeOf e)).1 e st le_rfl
  rw [h] at hh
  exact hh

/-- The shape a successful statement execution preserves on the scope
stack: same frame count, and the stack below the innermost frame is
untouched (only the innermost frame may gain bindings). -/
def localsShape (before after : List Frame) : Prop :=
  after.length = before.length ∧ after.tail = before.tail

theorem localsShape_refl (l : List Frame) : localsShape l l := ⟨rfl, rfl⟩

theorem localsShape_of_eq {a b : List Frame} (h : b = a) : localsShape a b := by
  subst h; exact localsShape_refl b

theorem localsShape_trans {a b c : List Frame} (h1 : localsShape a b)
    (h2 : localsShape b c) : localsShape a c :=
  ⟨h2.1.trans h1.1, h2.2.trans h1.2⟩

/-- `set_variable` touches only the innermost frame (or the globals). -/
theorem setVariable_localsShape (st : InterpSt) (name : String) (v : Value) :
    localsShape st.locals (setVariable st name v).locals := by
  cases h : st.locals with
  | nil => simp [setVariable, h, localsShape]
  | cons f rest => simp [setVariable, h, localsShape]

/-- Every statement-level executor preserves the scope-stack shape on a
successful (`ok`) outcome, by induction on the fuel. -/
theorem exec_localsShape : ∀ fuel : Nat,
    (∀ (s : Stmt) (st : InterpSt) (v : Value) (st' : InterpSt),
      execStmt fuel s st = .ok v st' → localsShape st.locals st'.locals) ∧
    (∀ (stmts : List Stmt) (acc : Value) (st : InterpSt) (v : Value) (st' : InterpSt),
      execBody fuel stmts acc st = .ok v st' → localsShape st.locals st'.locals) ∧
    (∀ (stmts : List Stmt) (acc : Value) (st : InterpSt) (v : Value) (st' : InterpSt),
      execBodyAll fuel stmts acc st = .ok v st' → localsShape st.locals st'.locals) ∧
    (∀ (cond : Expr) (body : List Stmt) (acc : Value) (st : InterpSt) (v : Value)
      (st' : InterpSt),
      whileLoop fuel cond body acc st = .ok v st' → localsShape st.locals st'.locals) ∧
    (∀ (cond inc : Option Expr) (body : List Stmt) (acc : Value) (st : InterpSt)
      (v : Value) (st' : InterpSt),
      forLoop fuel cond inc body acc st = .ok v st' → localsShape st.locals st'.locals) ∧
    (∀ (cond inc : Option Expr) (body : List Stmt) (acc : Value) (st : InterpSt)
      (v : Value) (st' : InterpSt),
      forBodyStep fuel cond inc body acc st = .ok v st' →
        localsShape st.locals st'.locals) ∧
    (∀ (cond inc : Option Expr) (body : List Stmt) (acc : Value) (st : InterpSt)
      (v : Value) (st' : InterpSt),
      forIncrStep fuel cond inc body acc st = .ok v st' →
        localsShape st.locals st'.locals) := by
  intro fuel
  induction fuel with
  | zero =>
    refine ⟨?_, ?_, ?_, ?_, ?_, ?_, ?_⟩
    · intro s st v st' h; simp [execStmt] at h
    · intro stmts acc st v st' h; simp [execBody] at h
    · intro stmts acc st v st' h; simp [execBodyAll] at h
    · intro cond body acc st v st' h; simp [whileLoop] at h
    · intro cond inc body acc st v st' h; simp [forLoop] at h
    · intro cond inc body acc st v st' h; simp [forBodyStep] at h
    · intro cond inc body acc st v st' h; simp [forIncrStep] at h
  | succ fuel ih =>
    obtain ⟨ihS, ihB, ihA, ihW, ihF, ihBS, ihIS⟩ := ih
    refine ⟨?_, ?_, ?_, ?_, ?_, ?_, ?_⟩
    · intro s st v st' h
      cases s with
      | Expression e =>
        simp only [execStmt] at h
        cases he : evalExpr e st with
        | ok v2 st2 =>
          rw [he] at h
          simp only [liftRes] at h
          injection h with h1 h2
          subst h2
          exact localsShape_of_eq (evalExpr_ok_locals he)
        | err m st2 => rw [he] at h; simp [liftRes] at h
        | panic m st2 => rw [he] at h; simp [liftRes] at h
      | Let name value =>
        simp only [execStmt] at h
        cases he : evalExpr value st with
        | ok v2 st2 =>
          rw [he] at h
          injection h with h1 h2
          subst h2
          exact localsShape_trans (localsShape_of_eq (evalExpr_ok_locals he))
            (setVariable_localsShape st2 name v2)
        | err m st2 => rw [he] at h; simp at h
        | panic m st2 => rw [he] at h; simp at h
      | Assign target value =>
        simp only [execStmt] at h
        cases he : evalExpr value st with
        | ok v2 st2 =>
          rw [he] at h
          injection h with h1 h2
          subst h2
          exact localsShape_trans (localsShape_of_eq (evalExpr_ok_locals he))
            (setVariable_localsShape st2 target v2)
        | err m st2 => rw [he] at h; simp at h
        | panic m st2 => rw [he] at h; simp at h
      | If condition thenBranch elseBranch =>
        simp only [execStmt] at h
        cases he : evalExpr condition st with
        | ok cv st2 =>
          rw [he] at h
          dsimp only at h
          have hloc : st2.locals = st.locals := evalExpr_ok_locals he
          by_cases ht : cv.isTruthy = true
          · rw [if_pos ht] at h
            exact localsShape_trans (localsShape_of_eq hloc)
              (ihB thenBranch .Void st2 v st' h)
          · rw [if_neg ht] at h
            cases elseBranch with
            | some elseStmts =>
              exact localsShape_trans (localsShape_of_eq hloc)
                (ihB elseStmts .Void st2 v st' h)
            | none =>
              injection h with h1 h2
              subst h2
              exact localsShape_of_eq hloc
        | err m st2 => rw [he] at h; simp at h
        | panic m st2 => rw [he] at h; simp at h
      | While condition body =>
        simp only [execStmt] at h
        exact ihW condition body .Void st v st' h
      | For init condition increment body =>
        simp only [execStmt] at h
        cases init with
        | some i =>
          dsimp only at h
          cases hi : execStmt fuel i st with
          | ok v2 st2 =>
            rw [hi] at h
            exact localsShape_trans (ihS i st v2 st2 hi)
              (ihF condition increment body .Void st2 v st' h)
          | err m st2 => rw [hi] at h; simp at h
          | panic m st2 => rw [hi] at h; simp at h
          | fuelOut => rw [hi] at h; simp at h
        | none => exact ihF condition increment body .Void st v st' h
      | FunctionDef name params body =>
        simp only [execStmt] at h
        injection h with h1 h2
        subst h2
        exact setVariable_localsShape st name _
      | Return e =>
        simp only [execStmt] at h
        cases e with
        | some ex =>
          dsimp only at h
          cases he : evalExpr ex st with
          | ok v2 st2 =>
            rw [he] at h
            injection h with h1 h2
            subst h2
            have h0 := evalExpr_ok_locals he
            exact localsShape_of_eq h0
          | err m st2 => rw [he] at h; simp at h
          | panic m st2 => rw [he] at h; simp at h
        | none =>
          injection h with h1 h2
          subst h2
          exact localsShape_refl st.locals
      | Break =>
        simp only [execStmt] at h
        injection h with h1 h2
        subst h2
        exact localsShape_refl st.locals
      | Continue =>
        simp only [execStmt] at h
        injection h with h1 h2
        subst h2
        exact localsShape_refl st.locals
      | Space name body =>
        simp only [execStmt] at h
        cases hb : execBodyAll fuel body .Void { st with locals := [] :: st.locals } with
        | ok v2 st2 =>
          rw [hb] at h
          injection h with h1 h2
          subst h2
          have hs := ihA body .Void { st with locals := [] :: st.locals } v2 st2 hb
          refine ⟨?_, ?_⟩
          · have hlen := hs.1
            simp only at hlen
            cases hst2 : st2.locals with
            | nil => rw [hst2] at hlen; simp at hlen
            | cons f rest =>
              rw [hst2] at hlen
              simp at hlen ⊢
              omega
          · have htl := hs.2
            simp only [List.tail_cons] at htl
            simp only [htl]
        | err m st2 => rw [hb] at h; simp at h
        | panic m st2 => rw [hb] at h; simp at h
        | fuelOut => rw [hb] at h; simp at h
      | Pub name params body =>
        simp only [execStmt] at h
        exact ihA body .Void st v st' h
      | Subpub name params body =>
        simp only [execStmt] at h
        exact ihA body .Void st v st' h
      | Block stmts =>
        simp only [execStmt] at h
        exact ihB stmts .Void st v st' h
    · intro stmts acc st v st' h
      cases stmts with
      | nil =>
        simp only [execBody] at h
        injection h with h1 h2
        subst h2
        exact localsShape_refl st.locals
      | cons s rest =>
        simp only [execBody] at h
        cases hs : execStmt fuel s st with
        | ok v2 st2 =>
          rw [hs] at h
          dsimp only at h
          have h1 := ihS s st v2 st2 hs
          by_cases hflag :
              (st2.returnValue.isSome || st2.breakFlag || st2.continueFlag) = true
          · rw [if_pos hflag] at h
            injection h with ha hb
            subst hb
            exact h1
          · rw [if_neg hflag] at h
            exact localsShape_trans h1 (ihB rest v2 st2 v st' h)
        | err m st2 => rw [hs] at h; simp at h
        | panic m st2 => rw [hs] at h; simp at h
        | fuelOut => rw [hs] at h; simp at h
    · intro stmts acc st v st' h
      cases stmts with
      | nil =>
        simp only [execBodyAll] at h
        injection h with h1 h2
        subst h2
        exact localsShape_refl st.locals
      | cons s rest =>
        simp only [execBodyAll] at h
        cases hs : execStmt fuel s st with
        | ok v2 st2 =>
          rw [hs] at h
          exact localsShape_trans (ihS s st v2 st2 hs) (ihA rest v2 st2 v st' h)
        | err m st2 => rw [hs] at h; simp at h
        | panic m st2 => rw [hs] at h; simp at h
        | fuelOut => rw [hs] at h; simp at h
    · intro cond body acc st v st' h
      simp only [whileLoop] at h
      cases he : evalExpr cond st with
      | ok cv st1 =>
        rw [he] at h
        dsimp only at h
        have h0 : st1.locals = st.locals := evalExpr_ok_locals he
        by_cases ht : cv.isTruthy = true
        · rw [if_pos ht] at h
          cases hb : execBody fuel body acc st1 with
          | ok r st2 =>
            rw [hb] at h
            dsimp only at h
            have h1 := ihB body acc st1 r st2 hb
            by_cases hbr : st2.breakFlag = true
            · rw [if_pos hbr] at h
              injection h with ha hc
              subst hc
              exact localsShape_trans (localsShape_of_eq h0) h1
            · rw [if_neg hbr] at h
              by_cases hco : st2.continueFlag = true
              · rw [if_pos hco] at h
                exact localsShape_trans (localsShape_of_eq h0)
                  (localsShape_trans h1
                    (ihW cond body r { st2 with continueFlag := false } v st' h))
              · rw [if_neg hco] at h
                by_cases hrv : st2.returnValue.isSome = true
                · rw [if_pos hrv] at h
                  injection h with ha hc
                  subst hc
                  exact localsShape_trans (localsShape_of_eq h0) h1
                · rw [if_neg hrv] at h
                  exact localsShape_trans (localsShape_of_eq h0)
                    (localsShape_trans h1 (ihW cond body r st2 v st' h))
          | err m st2 => rw [hb] at h; simp at h
          | panic m st2 => rw [hb] at h; simp at h
          | fuelOut => rw [hb] at h; simp at h
        · rw [if_neg ht] at h
          injection h with ha hc
          subst hc
          exact localsShape_of_eq h0
      | err m st1 => rw [he] at h; simp at h
      | panic m st1 => rw [he] at h; simp at h
    · intro cond inc body acc st v st' h
      simp only [forLoop] at h
      cases cond with
      | some c =>
        dsimp only at h
        cases he : evalExpr c st with
        | ok cv st1 =>
          rw [he] at h
          dsimp only at h
          have h0 : st1.locals = st.locals := evalExpr_ok_locals he
          by_cases ht : (!cv.isTruthy) = true
          · rw [if_pos ht] at h
            injection h with ha hc
            subst hc
            exact localsShape_of_eq h0
          · rw [if_neg ht] at h
            exact localsShape_trans (localsShape_of_eq h0)
              (ihBS (some c) inc body acc st1 v st' h)
        | err m st1 => rw [he] at h; simp at h
        | panic m st1 => rw [he] at h; simp at h
      | none => exact ihBS none inc body acc st v st' h
    · intro cond inc body acc st v st' h
      simp only [forBodyStep] at h
      cases hb : execBody fuel body acc st with
      | ok r st2 =>
        rw [hb] at h
        dsimp only at h
        have h1 := ihB body acc st r st2 hb
        by_cases hbr : st2.breakFlag = true
        · rw [if_pos hbr] at h
          injection h with ha hc
          subst hc
          exact h1
        · rw [if_neg hbr] at h
          by_cases hco : st2.continueFlag = true
          · rw [if_pos hco] at h
            exact localsShape_trans h1
              (ihIS cond inc body r { st2 with continueFlag := false } v st' h)
          · rw [if_neg hco] at h
            by_cases hrv : st2.returnValue.isSome = true
            · rw [if_pos hrv] at h
              injection h with ha hc
              subst hc
              exact h1
            · rw [if_neg hrv] at h
              exact localsShape_trans h1 (ihIS cond inc body r st2 v st' h)
      | err m st2 => rw [hb] at h; simp at h
      | panic m st2 => rw [hb] at h; simp at h
      | fuelOut => rw [hb] at h; simp at h
    · intro cond inc body acc st v st' h
      simp only [forIncrStep] at h
      cases inc with
      | some i =>
        dsimp only at h
        cases he : evalExpr i st with
        | ok w st2 =>
          rw [he] at h
          exact localsShape_trans (localsShape_of_eq (evalExpr_ok_locals he))
            (ihF cond (some i) body acc st2 v st' h)
        | err m st2 => rw [he] at h; simp at h
        | panic m st2 => rw [he] at h; simp at h
      | none => exact ihF cond none body acc st v st' h

/-- C5 (counterexample): when a statement of a `Space` body fails, the
`?` in the source propagates the error before `self.locals.pop()` runs,
so the frame pushed on entry is still on the scope stack in the error
state — the pop is skipped on the error exit path. -/
theorem C5_space_frame_leaks_on_error :
    execStmt 3 (Stmt.Space "util" [Stmt.Expression (Expr.Identifier "nosuch")])
        initialInterpSt =
      .err "Undefined variable: nosuch" { initialInterpSt with locals := [[]] } ∧
    ({ initialInterpSt with locals := [[]] } : InterpSt).locals ≠
      initialInterpSt.locals := by
  refine ⟨by decide, by decide⟩

/-- C5 (amended): on the successful exit path the claim holds exactly —
a `Space` statement that completes with `ok` leaves the whole scope
stack (depth and contents, the pushed frame gone) as it was before. -/
theorem C5_space_restores_scope_stack_on_ok (fuel : Nat) (name : String)
    (body : List Stmt) (st : InterpSt) (v : Value) (st' : InterpSt)
    (h : execStmt fuel (Stmt.Space name body) st = .ok v st') :
    st'.locals = st.locals := by
  cases fuel with
  | zero => simp [execStmt] at h
  | succ fuel =>
    simp only [execStmt] at h
    cases hb : execBodyAll fuel body .Void { st with locals := [] :: st.locals } with
    | ok v2 st2 =>
      rw [hb] at h
      injection h with h1 h2
      subst h2
      have hs := (exec_localsShape fuel).2.2.1 body .Void
        { st with locals := [] :: st.locals } v2 st2 hb
      have htl := hs.2
      simp only [List.tail_cons] at htl
      simpa using htl
    | err m st2 => rw [hb] at h; simp at h
    | panic m st2 => rw [hb] at h; simp at h
    | fuelOut => rw [hb] at h; simp at h

/-- Witness for C5's amended statement: a `Space` whose body prints and
assigns locally, run from the initial state. -/
theorem C5_space_restores_scope_stack_on_ok_witness :
    ({ initialInterpSt with output := ["1\n"] } : InterpSt).locals =
      initialInterpSt.locals :=
  C5_space_restores_scope_stack_on_ok 5 "util"
    [Stmt.Let "x" (Expr.Number 1),
     Stmt.Expression (Expr.Call (Expr.Identifier "print") [Expr.Identifier "x"])]
    initialInterpSt .Void { initialInterpSt with output := ["1\n"] } (by decide)

/-! ## Claim C2: the grammar has no assignment-statement production -/

mutual

/-- No `Stmt.Assign` node anywhere in a statement. -/
def stmtNoAssign : Stmt → Bool
  | .Assign _ _ => false
  | .If _ thenBranch elseBranch =>
    stmtsNoAssign thenBranch && optStmtsNoAssign elseBranch
  | .While _ body => stmtsNoAssign body
  | .For init _ _ body => optStmtNoAssign init && stmtsNoAssign body
  | .FunctionDef _ _ body => stmtsNoAssign body
  | .Space _ body => stmtsNoAssign body
  | .Pub _ _ body => stmtsNoAssign body
  | .Subpub _ _ body => stmtsNoAssign body
  | .Block body => stmtsNoAssign body
  | _ => true

def stmtsNoAssign : List Stmt → Bool
  | [] => true
  | s :: rest => stmtNoAssign s && stmtsNoAssign rest

def optStmtNoAssign : Option Stmt → Bool
  | some s => stmtNoAssign s
  | none => true

def optStmtsNoAssign : Option (List Stmt) → Bool
  | some l => stmtsNoAssign l
  | none => true

end

/-- No `Stmt.Assign` node anywhere in a program. -/
def progNoAssign (p : Program) : Bool := stmtsNoAssign p.statements

/-- Inversion of a successful monadic bind of parsing methods. -/
theorem ParseM.bind_ok {α β : Type} {m : ParseM α} {f : α → ParseM β}
    {ts ts2 : List Token} {b : β} (h : ParseM.bind m f ts = .ok b ts2) :
    ∃ a ts1, m ts = .ok a ts1 ∧ f a ts1 = .ok b ts2 := by
  unfold ParseM.bind at h
  cases hm : m ts with
  | ok a ts1 => rw [hm] at h; exact ⟨a, ts1, rfl, h⟩
  | err e => rw [hm] at h; simp at h
  | fuelOut => rw [hm] at h; simp at h

/-- The expression-statement fallthrough of `Parser::parse_statement`
builds a `Stmt.Expression`, which holds no statement at all. -/
theorem exprStmt_noAssign (fuel : Nat) (ts : List Token) (s : Stmt)
    (ts2 : List Token)
    (h : (do
        let e ← parseExpression fuel
        expectTok Token.Semicolon
        ParseM.pure (Stmt.Expression e) : ParseM Stmt) ts = .ok s ts2) :
    stmtNoAssign s = true := by
  obtain ⟨e, tsa, he, h⟩ := ParseM.bind_ok h
  obtain ⟨u, tsb, hu, h⟩ := ParseM.bind_ok h
  simp only [ParseM.pure] at h
  injection h with h1 h2
  subst h1
  rfl

/-- No statement-producing parser method ever builds a `Stmt.Assign`:
there is no production for it, so every successfully parsed statement
satisfies `stmtNoAssign`. -/
theorem parse_noAssign : ∀ fuel : Nat,
    (∀ (ts : List Token) (s : Stmt) (ts2 : List Token),
      parseStatement fuel ts = .ok s ts2 → stmtNoAssign s = true) ∧
    (∀ (ts : List Token) (l : List Stmt) (ts2 : List Token),
      parseStmtListUntil fuel ts = .ok l ts2 → stmtsNoAssign l = true) ∧
    (∀ (ts : List Token) (s : Stmt) (ts2 : List Token),
      parseSpace fuel ts = .ok s ts2 → stmtNoAssign s = true) ∧
    (∀ (ts : List Token) (s : Stmt) (ts2 : List Token),
      parsePub fuel ts = .ok s ts2 → stmtNoAssign s = true) ∧
    (∀ (ts : List Token) (s : Stmt) (ts2 : List Token),
      parseSubpub fuel ts = .ok s ts2 → stmtNoAssign s = true) ∧
    (∀ (ts : List Token) (s : Stmt) (ts2 : List Token),
      parseLet fuel ts = .ok s ts2 → stmtNoAssign s = true) ∧
    (∀ (ts : List Token) (s : Stmt) (ts2 : List Token),
      parseIf fuel ts = .ok s ts2 → stmtNoAssign s = true) ∧
    (∀ (ts : List Token) (s : Stmt) (ts2 : List Token),
      parseWhile fuel ts = .ok s ts2 → stmtNoAssign s = true) ∧
    (∀ (ts : List Token) (s : Stmt) (ts2 : List Token),
      parseFor fuel ts = .ok s ts2 → stmtNoAssign s = true) ∧
    (∀ (ts : List Token) (s : Stmt) (ts2 : List Token),
      parseReturn fuel ts = .ok s ts2 → stmtNoAssign s = true) ∧
    (∀ (ts : List Token) (s : Stmt) (ts2 : List Token),
      parseBlock fuel ts = .ok s ts2 → stmtNoAssign s = true) ∧
    (∀ (ts : List Token) (s : Stmt) (ts2 : List Token),
      parseFunctionDef fuel ts = .ok s ts2 → stmtNoAssign s = true) := by
  intro fuel
  induction fuel with
  | zero =>
    refine ⟨?_, ?_, ?_, ?_, ?_, ?_, ?_, ?_, ?_, ?_, ?_, ?_⟩
    · intro ts s ts2 h; simp [parseStatement] at h
    · intro ts l ts2 h; simp [parseStmtListUntil] at h
    · intro ts s ts2 h; simp [parseSpace] at h
    · intro ts s ts2 h; simp [parsePub] at h
    · intro ts s ts2 h; simp [parseSubpub] at h
    · intro ts s ts2 h; simp [parseLet] at h
    · intro ts s ts2 h; simp [parseIf] at h
    · intro ts s ts2 h; simp [parseWhile] at h
    · intro ts s ts2 h; simp [parseFor] at h
    · intro ts s ts2 h; simp [parseReturn] at h
    · intro ts s ts2 h; simp [parseBlock] at h
    · intro ts s ts2 h; simp [parseFunctionDef] at h
  | succ fuel ih =>
    obtain ⟨ihS, ihL, ihSp, ihPub, ihSub, ihLet, ihIf, ihWh, ihFor, ihRet, ihBlk, ihFn⟩ := ih
    refine ⟨?_, ?_, ?_, ?_, ?_, ?_, ?_, ?_, ?_, ?_, ?_, ?_⟩
    · intro ts s ts2 h
      simp only [parseStatement] at h
      obtain ⟨t, ts1, ht, h⟩ := ParseM.bind_ok h
      cases t
      case Space => exact ihSp ts1 s ts2 h
      case Pub => exact ihPub ts1 s ts2 h
      case Subpub => exact ihSub ts1 s ts2 h
      case Let => exact ihLet ts1 s ts2 h
      case If => exact ihIf ts1 s ts2 h
      case While => exact ihWh ts1 s ts2 h
      case For => exact ihFor ts1 s ts2 h
      case Return => exact ihRet ts1 s ts2 h
      case LeftBrace => exact ihBlk ts1 s ts2 h
      case Function => exact ihFn ts1 s ts2 h
      case Break =>
        obtain ⟨u1, tsa, h1, h⟩ := ParseM.bind_ok h
        obtain ⟨u2, tsb, h2, h⟩ := ParseM.bind_ok h
        simp only [ParseM.pure] at h
        injection h with ha hb
        subst ha
        rfl
      case Continue =>
        obtain ⟨u1, tsa, h1, h⟩ := ParseM.bind_ok h
        obtain ⟨u2, tsb, h2, h⟩ := ParseM.bind_ok h
        simp only [ParseM.pure] at h
        injection h with ha hb
        subst ha
        rfl
      all_goals exact exprStmt_noAssign fuel ts1 s ts2 h
    · intro ts l ts2 h
      simp only [parseStmtListUntil] at h
      obtain ⟨cur, ts1, hc, h⟩ := ParseM.bind_ok h
      by_cases hr : cur = Token.RightBrace ∨ cur = Token.Eof
      · rw [if_pos hr] at h
        simp only [ParseM.pure] at h
        injection h with ha hb
        subst ha
        rfl
      · rw [if_neg hr] at h
        obtain ⟨s, tsa, hs, h⟩ := ParseM.bind_ok h
        obtain ⟨rest, tsb, hrest, h⟩ := ParseM.bind_ok h
        simp only [ParseM.pure] at h
        injection h with ha hb
        subst ha
        have h1 := ihS ts1 s tsa hs
        have h2 := ihL tsa rest tsb hrest
        simp [stmtsNoAssign, h1, h2]
    · intro ts s ts2 h
      simp only [parseSpace] at h
      obtain ⟨u1, t1, e1, h⟩ := ParseM.bind_ok h
      obtain ⟨name, t2, e2, h⟩ := ParseM.bind_ok h
      obtain ⟨u2, t3, e3, h⟩ := ParseM.bind_ok h
      obtain ⟨u3, t4, e4, h⟩ := ParseM.bind_ok h
      obtain ⟨body, t5, e5, h⟩ := ParseM.bind_ok h
      obtain ⟨u4, t6, e6, h⟩ := ParseM.bind_ok h
      obtain ⟨u5, t7, e7, h⟩ := ParseM.bind_ok h
      obtain ⟨u6, t8, e8, h⟩ := ParseM.bind_ok h
      obtain ⟨u7, t9, e9, h⟩ := ParseM.bind_ok h
      simp only [ParseM.pure] at h
      injection h with ha hb
      subst ha
      have hbody := ihL t4 body t5 e5
      simpa [stmtNoAssign] using hbody
    · intro ts s ts2 h
      simp only [parsePub] at h
      obtain ⟨u1, t1, e1, h⟩ := ParseM.bind_ok h
      obtain ⟨u2, t2, e2, h⟩ := ParseM.bind_ok h
      obtain ⟨u3, t3, e3, h⟩ := ParseM.bind_ok h
      obtain ⟨cur, t4, e4, h⟩ := ParseM.bind_ok h
      by_cases hc : cur = Token.Semicolon
      · rw [if_pos hc] at h
        obtain ⟨u4, t5, e5, h⟩ := ParseM.bind_ok h
        obtain ⟨u5, t6, e6, h⟩ := ParseM.bind_ok h
        obtain ⟨name, t7, e7, h⟩ := ParseM.bind_ok h
        obtain ⟨u6, t8, e8, h⟩ := ParseM.bind_ok h
        obtain ⟨body, t9, e9, h⟩ := ParseM.bind_ok h
        obtain ⟨u7, t10, e10, h⟩ := ParseM.bind_ok h
        obtain ⟨u8, t11, e11, h⟩ := ParseM.bind_ok h
        simp only [ParseM.pure] at h
        injection h with ha hb
        subst ha
        have hbody := ihL t8 body t9 e9
        simpa [stmtNoAssign] using hbody
      · rw [if_neg hc] at h
        obtain ⟨u4, t5, e5, h⟩ := ParseM.bind_ok h
        obtain ⟨u5, t6, e6, h⟩ := ParseM.bind_ok h
        obtain ⟨name, t7, e7, h⟩ := ParseM.bind_ok h
        obtain ⟨u6, t8, e8, h⟩ := ParseM.bind_ok h
        obtain ⟨body, t9, e9, h⟩ := ParseM.bind_ok h
        obtain ⟨u7, t10, e10, h⟩ := ParseM.bind_ok h
        obtain ⟨u8, t11, e11, h⟩ := ParseM.bind_ok h
        simp only [ParseM.pure] at h
        injection h with ha hb
        subst ha
        have hbody := ihL t8 body t9 e9
        simpa [stmtNoAssign] using hbody
    · intro ts s ts2 h
      simp only [parseSubpub] at h
      obtain ⟨u1, t1, e1, h⟩ := ParseM.bind_ok h
      obtain ⟨u2, t2, e2, h⟩ := ParseM.bind_ok h
      obtain ⟨u3, t3, e3, h⟩ := ParseM.bind_ok h
      obtain ⟨body, t4, e4, h⟩ := ParseM.bind_ok h
      obtain ⟨u4, t5, e5, h⟩ := ParseM.bind_ok h
      simp only [ParseM.pure] at h
      injection h with ha hb
      subst ha
      have hbody := ihL t3 body t4 e4
      simpa [stmtNoAssign] using hbody
    · intro ts s ts2 h
      simp only [parseLet] at h
      obtain ⟨u1, t1, e1, h⟩ := ParseM.bind_ok h
      obtain ⟨name, t2, e2, h⟩ := ParseM.bind_ok h
      obtain ⟨u2, t3, e3, h⟩ := ParseM.bind_ok h
      obtain ⟨value, t4, e4, h⟩ := ParseM.bind_ok h
      obtain ⟨u3, t5, e5, h⟩ := ParseM.bind_ok h
      simp only [ParseM.pure] at h
      injection h with ha hb
      subst ha
      rfl
    · intro ts s ts2 h
      simp only [parseIf] at h
      obtain ⟨u1, t1, e1, h⟩ := ParseM.bind_ok h
      obtain ⟨u2, t2, e2, h⟩ := ParseM.bind_ok h
      obtain ⟨condition, t3, e3, h⟩ := ParseM.bind_ok h
      obtain ⟨u3, t4, e4, h⟩ := ParseM.bind_ok h
      obtain ⟨u4, t5, e5, h⟩ := ParseM.bind_ok h
      obtain ⟨thenBranch, t6, e6, h⟩ := ParseM.bind_ok h
      obtain ⟨u5, t7, e7, h⟩ := ParseM.bind_ok h
      obtain ⟨cur, t8, e8, h⟩ := ParseM.bind_ok h
      have hthen := ihL t5 thenBranch t6 e6
      by_cases hel : cur = Token.Else
      · rw [if_pos hel] at h
        obtain ⟨u6, t9, e9, h⟩ := ParseM.bind_ok h
        obtain ⟨u7, t10, e10, h⟩ := ParseM.bind_ok h
        obtain ⟨branch, t11, e11, h⟩ := ParseM.bind_ok h
        obtain ⟨u8, t12, e12, h⟩ := ParseM.bind_ok h
        simp only [ParseM.pure] at h
        injection h with ha hb
        subst ha
        have hbr := ihL t10 branch t11 e11
        simp [stmtNoAssign, optStmtsNoAssign, hthen, hbr]
      · rw [if_neg hel] at h
        simp only [ParseM.pure] at h
        injection h with ha hb
        subst ha
        simp [stmtNoAssign, optStmtsNoAssign, hthen]
    · intro ts s ts2 h
      simp only [parseWhile] at h
      obtain ⟨u1, t1, e1, h⟩ := ParseM.bind_ok h
      obtain ⟨u2, t2, e2, h⟩ := ParseM.bind_ok h
      obtain ⟨condition, t3, e3, h⟩ := ParseM.bind_ok h
      obtain ⟨u3, t4, e4, h⟩ := ParseM.bind_ok h
      obtain ⟨u4, t5, e5, h⟩ := ParseM.bind_ok h
      obtain ⟨body, t6, e6, h⟩ := ParseM.bind_ok h
      obtain ⟨u5, t7, e7, h⟩ := ParseM.bind_ok h
      simp only [ParseM.pure] at h
      injection h with ha hb
      subst ha
      have hbody := ihL t5 body t6 e6
      simpa [stmtNoAssign] using hbody
    · intro ts s ts2 h
      simp only [parseFor] at h
      obtain ⟨u1, t1, e1, h⟩ := ParseM.bind_ok h
      obtain ⟨u2, t2, e2, h⟩ := ParseM.bind_ok h
      obtain ⟨cur, t3, e3, h⟩ := ParseM.bind_ok h
      obtain ⟨init, t4, e4, h⟩ := ParseM.bind_ok h
      have hinit : optStmtNoAssign init = true := by
        by_cases hc : cur ≠ Token.Semicolon
        · rw [if_pos hc] at e4
          obtain ⟨s0, ta, hs0, e4⟩ := ParseM.bind_ok e4
          simp only [ParseM.pure] at e4
          injection e4 with ha hb
          subst ha
          simpa [optStmtNoAssign] using ihS t3 s0 ta hs0
        · rw [if_neg hc] at e4
          obtain ⟨u0, ta, hu0, e4⟩ := ParseM.bind_ok e4
          simp only [ParseM.pure] at e4
          injection e4 with ha hb
          subst ha
          rfl
      obtain ⟨cur2, t5, e5, h⟩ := ParseM.bind_ok h
      obtain ⟨condition, t6, e6, h⟩ := ParseM.bind_ok h
      obtain ⟨u3, t7, e7, h⟩ := ParseM.bind_ok h
      obtain ⟨cur3, t8, e8, h⟩ := ParseM.bind_ok h
      obtain ⟨increment, t9, e9, h⟩ := ParseM.bind_ok h
      obtain ⟨u4, t10, e10, h⟩ := ParseM.bind_ok h
      obtain ⟨u5, t11, e11, h⟩ := ParseM.bind_ok h
      obtain ⟨body, t12, e12, h⟩ := ParseM.bind_ok h
      obtain ⟨u6, t13, e13, h⟩ := ParseM.bind_ok h
      simp only [ParseM.pure] at h
      injection h with ha hb
      subst ha
      have hbody := ihL t11 body t12 e12
      simp [stmtNoAssign, hinit, hbody]
    · intro ts s ts2 h
      simp only [parseReturn] at h
      obtain ⟨u1, t1, e1, h⟩ := ParseM.bind_ok h
      obtain ⟨cur, t2, e2, h⟩ := ParseM.bind_ok h
      obtain ⟨value, t3, e3, h⟩ := ParseM.bind_ok h
      obtain ⟨u2, t4, e4, h⟩ := ParseM.bind_ok h
      simp only [ParseM.pure] at h
      injection h with ha hb
      subst ha
      rfl
    · intro ts s ts2 h
      simp only [parseBlock] at h
      obtain ⟨u1, t1, e1, h⟩ := ParseM.bind_ok h
      obtain ⟨statements, t2, e2, h⟩ := ParseM.bind_ok h
      obtain ⟨u2, t3, e3, h⟩ := ParseM.bind_ok h
      simp only [ParseM.pure] at h
      injection h with ha hb
      subst ha
      have hbody := ihL t1 statements t2 e2
      simpa [stmtNoAssign] using hbody
    · intro ts s ts2 h
      simp only [parseFunctionDef] at h
      obtain ⟨u1, t1, e1, h⟩ := ParseM.bind_ok h
      obtain ⟨name, t2, e2, h⟩ := ParseM.bind_ok h
      obtain ⟨u2, t3, e3, h⟩ := ParseM.bind_ok h
      obtain ⟨params, t4, e4, h⟩ := ParseM.bind_ok h
      obtain ⟨u3, t5, e5, h⟩ := ParseM.bind_ok h
      obtain ⟨u4, t6, e6, h⟩ := ParseM.bind_ok h
      obtain ⟨body, t7, e7, h⟩ := ParseM.bind_ok h
      obtain ⟨u5, t8, e8, h⟩ := ParseM.bind_ok h
      simp only [ParseM.pure] at h
      injection h with ha hb
      subst ha
      have hbody := ihL t6 body t7 e7
      simpa [stmtNoAssign] using hbody

/-- The top-level statement loop of `Parser::parse` also only collects
statements the productions can build. -/
theorem parseTopLevel_noAssign : ∀ (fuel : Nat) (ts : List Token)
    (l : List Stmt) (ts2 : List Token),
    parseTopLevel fuel ts = .ok l ts2 → stmtsNoAssign l = true := by
  intro fuel
  induction fuel with
  | zero => intro ts l ts2 h; simp [parseTopLevel] at h
  | succ fuel ih =>
    intro ts l ts2 h
    simp only [parseTopLevel] at h
    obtain ⟨cur, ts1, hc, h⟩ := ParseM.bind_ok h
    by_cases he : cur = Token.Eof
    · rw [if_pos he] at h
      simp only [ParseM.pure] at h
      injection h with ha hb
      subst ha
      rfl
    · rw [if_neg he] at h
      obtain ⟨s, tsa, hs, h⟩ := ParseM.bind_ok h
      obtain ⟨rest, tsb, hrest, h⟩ := ParseM.bind_ok h
      simp only [ParseM.pure] at h
      injection h with ha hb
      subst ha
      have h1 := (parse_noAssign fuel).1 ts1 s tsa hs
      have h2 := ih tsa rest tsb hrest
      simp [stmtsNoAssign, h1, h2]

/-- C2: a program the parser returns successfully contains no
`Stmt.Assign` node (the grammar has no production for it), and a
statement of the form `IDENT = ...` fails to parse with exactly the
"Expected Semicolon, got Equal" diagnostic: the identifier parses as an
expression statement and the `=` is rejected by the semicolon check. -/
theorem C2_no_assign_production :
    (∀ (fuel : Nat) (src : String) (p : Program) (rest : List Token),
      parseSource fuel src = .ok p rest → progNoAssign p = true) ∧
    (∀ (name : String) (rest : List Token),
      parseStatement 50 (Token.Identifier name :: Token.Equal :: rest) =
        .err "Expected Semicolon, got Equal") := by
  constructor
  · intro fuel src p rest h
    unfold parseSource parseProgram at h
    obtain ⟨stmts, ts1, hts, h⟩ := ParseM.bind_ok h
    simp only [ParseM.pure] at h
    injection h with h1 h2
    subst h1
    exact parseTopLevel_noAssign fuel _ stmts ts1 hts
  · intro name rest
    rfl

/-- Witness for C2 at the program `let x = 1;` (parses, no `Assign`
inside) and the statement `x = 1;` (rejected at the `=`). -/
theorem C2_no_assign_production_witness :
    progNoAssign (Program.mk [Stmt.Let "x" (Expr.Number 1)]) = true ∧
    parseStatement 50 [Token.Identifier "x", Token.Equal, Token.Number 1,
        Token.Semicolon, Token.Eof] =
      .err "Expected Semicolon, got Equal" :=
  ⟨C2_no_assign_production.1 50 "let x = 1;"
      (Program.mk [Stmt.Let "x" (Expr.Number 1)]) [Token.Eof] (by rfl),
   C2_no_assign_production.2 "x" [Token.Number 1, Token.Semicolon, Token.Eof]⟩

end HioLang
